import Mathlib

/-!
Verification development for the Cursor-Tag game server (src/server.js).

The server core is shallowly embedded: positions and distances are rationals,
timestamps and durations are integer milliseconds, JS null fields become
Option, the insertion-ordered player Map of a room becomes a list of players
in join order.  Every random draw made by the source (spawn coordinates, bot
noise, index picks) is passed in as an explicit parameter.  Calls to
Math.sqrt that feed a comparison are translated to the equivalent comparison
of squares (for nonnegative a and threshold c, sqrt a < c iff a < c * c);
calls whose result is accumulated into a stat are routed through an abstract
function parameter standing for Math.sqrt, since no claim constrains the
accumulated value itself.  Math.cos, Math.sin and Math.PI in the bot wander
logic are likewise abstract parameters.
-/

set_option maxHeartbeats 1000000
set_option maxRecDepth 100000

namespace CursorTag

/-- Lifecycle states of a room, from the state field of server.js. -/
inductive GameState
  | waiting
  | countdown
  | playing
  | ended
deriving DecidableEq

/-- Difficulty parameters, one row of the DIFFICULTY table. -/
structure DiffCfg where
  speed : ℚ
  accuracy : ℚ
  mistakeChance : ℚ
  reactionTicks : ℕ
deriving DecidableEq

/-- Abstract stand-ins for the JS Math functions whose exact values no claim
depends on.  sqrtQ models Math.sqrt where the result is stored rather than
compared, cosQ and sinQ model Math.cos and Math.sin, piQ models Math.PI. -/
structure MathFns where
  sqrtQ : ℚ → ℚ
  cosQ : ℚ → ℚ
  sinQ : ℚ → ℚ
  piQ : ℚ

/-- One reaction step worth of random draws made by updateBot.  aimX and aimY
model the two draws of Math.random() - 0.5 used for target noise, wanderTurn
the draw of Math.random() - 0.5 for the wander heading, mistakeRoll the draw
of Math.random() compared against mistakeChance, mistakeX and mistakeY the
draws of Math.random() for the mistake target. -/
structure BotRand where
  aimX : ℚ
  aimY : ℚ
  wanderTurn : ℚ
  mistakeRoll : ℚ
  mistakeX : ℚ
  mistakeY : ℚ

/-- Random draws consumed when a player is created or reset: the spawn
coordinates 20 + Math.random() * 60 and the wander angle Math.random() * 2pi
are taken already evaluated. -/
structure SpawnRand where
  sx : ℚ
  sy : ℚ
  wander : ℚ

/-- Random draws and the fresh uuid consumed by addBot: the generated bot id,
the index drawn into the list of available names, and the spawn draws. -/
structure NewBotRand where
  botId : ℕ
  nameIdx : ℕ
  spawn : SpawnRand

def TAG_DISTANCE_PCT : ℚ := 5
def GAME_DURATION_MS : ℤ := 60000
def COUNTDOWN_SECONDS : ℕ := 3
def TAG_IMMUNITY_MS : ℤ := 3000

def PLAYER_COLORS : List String :=
  ["#FF4B6E", "#4BFFA5", "#4B9FFF", "#FFB74B",
   "#C84BFF", "#FF4BC8", "#4BFFE4", "#FFE44B"]

def BOT_NAMES : List String :=
  ["Dizzy", "Cheddar", "Glitch", "Turbo", "Biscuit", "Noodle",
   "Zapper", "Pudding", "Chaos", "Wobble", "Socks", "Blip",
   "Frenzy", "Mochi", "Zigzag", "Crispy", "Doodle", "Sparky",
   "Pickle", "Waffles", "Bonkers", "Fizz", "Peanut", "Rascal"]

/-- Difficulty table of server.js (speed 0.6 / 1.1 / 1.7, accuracy 0.4 / 0.7 /
0.95, mistakeChance 0.35 / 0.15 / 0.04, reactionTicks 8 / 4 / 1). -/
def DIFFICULTY (d : String) : Option DiffCfg :=
  if d = "easy" then
    some { speed := 3/5, accuracy := 2/5, mistakeChance := 7/20, reactionTicks := 8 }
  else if d = "medium" then
    some { speed := 11/10, accuracy := 7/10, mistakeChance := 3/20, reactionTicks := 4 }
  else if d = "hard" then
    some { speed := 17/10, accuracy := 19/20, mistakeChance := 1/25, reactionTicks := 1 }
  else none

/-- Lookup DIFFICULTY with the source fallback bot.difficulty or medium.  The
final getD is unreachable because addBot only stores validated tiers. -/
def difficultyFor (d : Option String) : DiffCfg :=
  (DIFFICULTY (d.getD "medium")).getD
    { speed := 11/10, accuracy := 7/10, mistakeChance := 3/20, reactionTicks := 4 }

/-- Player record, field by field from makePlayer in server.js.  The ws handle
is dropped (transport is external); uuid ids are modeled as naturals. -/
structure Player where
  id : ℕ
  name : String
  color : String
  isBot : Bool
  difficulty : Option String
  x : ℚ
  y : ℚ
  prevX : ℚ
  prevY : ℚ
  isIt : Bool
  immune : Bool
  immuneUntil : ℤ
  timeNotIt : ℤ
  tagsMade : ℕ
  fastestTag : Option ℤ
  becameItAt : Option ℤ
  wasEverIt : Bool
  timesTagged : ℕ
  lastTaggerId : Option ℕ
  retags : ℕ
  totalDistance : ℚ
  cornerTime : ℤ
  edgeTime : ℤ
  itStreaks : List ℤ
  currentItStart : Option ℤ
  opportunistTags : ℕ
  lastMoveTime : Option ℤ
  trackingActive : Bool
  botTargetX : ℚ
  botTargetY : ℚ
  botTickCounter : ℕ
  botWanderAngle : ℚ
deriving DecidableEq

/-- Room record from createRoom in server.js.  The players Map becomes a list
in insertion (join) order; the timer handles are owned by the external
scheduler and carry no game state, so they are not part of the record. -/
structure Room where
  code : String
  state : GameState
  players : List Player
  itPlayerId : Option ℕ
  gameStartTime : Option ℤ
  lastTickTime : Option ℤ
  firstTaggedId : Option ℕ
  usedBotNames : List String
deriving DecidableEq

/-- Truthiness of a JS number-or-null field: null coerces to 0 and a number is
truthy exactly when it is nonzero. -/
def truthy (o : Option ℤ) : Bool := o.getD 0 != 0

/-- Broadcastable event records.  Payloads that merely re-serialize state the
claims do not mention (player snapshots, live scores, time left) are omitted
from the constructors; the fields the claims inspect are kept. -/
inductive Event
  | countdownEv (count : ℕ)
  | gameStartedEv
  | gameStateEv
  | tagged (newItId : ℕ) (taggerId : ℕ)
  | gameEndedEv
  | playerJoined
  | playerLeft
  | playAgainEv
  | errorMsg (message : String)
deriving DecidableEq

/-- Outbound messages: ws.send to the issuing client versus broadcastToRoom. -/
inductive Out
  | toSender (e : Event)
  | broadcast (e : Event)
deriving DecidableEq

/-- Personality award record, from the AWARDS table. -/
structure Award where
  emoji : String
  title : String
  descr : String
deriving DecidableEq

def panicMouse : Award := { emoji := "m", title := "Panic Mouse", descr := "Most frantic movement" }
def escapeArtist : Award := { emoji := "r", title := "Escape Artist", descr := "Never got tagged" }
def cornerRat : Award := { emoji := "c", title := "Corner Rat", descr := "Most time hiding in corners" }
def revengeSeeker : Award := { emoji := "v", title := "Revenge Seeker", descr := "Most re-tags" }
def magnetToDanger : Award := { emoji := "g", title := "Magnet to Danger", descr := "Got tagged the most" }
def anchoredToWalls : Award := { emoji := "w", title := "Anchored to Walls", descr := "Most time near edges" }
def sacrificialLamb : Award := { emoji := "s", title := "Sacrificial Lamb", descr := "First to get tagged" }
def opportunistAw : Award := { emoji := "o", title := "Opportunist", descr := "Tagged the most idle players" }

/-- List indexing, as JS array subscription playerList[i]. -/
def nth {α : Type} : List α → ℕ → Option α
  | [], _ => none
  | a :: _, 0 => some a
  | _ :: t, n + 1 => nth t n

/-- Pointwise update of the element at one index, leaving the rest alone; this
models a JS in-place mutation of one entry of an array of objects. -/
def updateAt {α : Type} (f : α → α) : ℕ → List α → List α
  | _, [] => []
  | 0, a :: t => f a :: t
  | n + 1, a :: t => a :: updateAt f n t

/-- Map with the position index, used to hand each iteration of a JS forEach
its own random draws. -/
def mapWithIdx {α β : Type} (f : ℕ → α → β) (l : List α) : List β :=
  (List.range l.length).zip l |>.map (fun ia => f ia.1 ia.2)

/-- Minimum of a list of integers; none models Math.min of an empty spread,
which is Infinity in JS. -/
def minList : List ℤ → Option ℤ
  | [] => none
  | x :: t =>
    match minList t with
    | none => some x
    | some m => some (min x m)

/-- Maximum of a list of rationals; none models the empty spread. -/
def maxListQ : List ℚ → Option ℚ
  | [] => none
  | x :: t =>
    match maxListQ t with
    | none => some x
    | some m => some (max x m)

/-- Maximum of a list of naturals; none models the empty spread. -/
def maxListN : List ℕ → Option ℕ
  | [] => none
  | x :: t =>
    match maxListN t with
    | none => some x
    | some m => some (max x m)

/-- Squared Euclidean distance between two points. -/
def distSq (ax ay bx by_ : ℚ) : ℚ := (ax - bx) * (ax - bx) + (ay - by_) * (ay - by_)

/-- makePlayer of server.js.  The random spawn draws x, y in 20 + random * 60
and the random wander angle arrive through sr. -/
def makePlayer (id : ℕ) (name color : String) (isBot : Bool) (difficulty : Option String)
    (sr : SpawnRand) : Player :=
  { id := id, name := name, color := color, isBot := isBot, difficulty := difficulty,
    x := sr.sx, y := sr.sy, prevX := 50, prevY := 50,
    isIt := false, immune := false, immuneUntil := 0,
    timeNotIt := 0, tagsMade := 0, fastestTag := none,
    becameItAt := none, wasEverIt := false,
    timesTagged := 0, lastTaggerId := none, retags := 0,
    totalDistance := 0, cornerTime := 0, edgeTime := 0,
    itStreaks := [], currentItStart := none,
    opportunistTags := 0, lastMoveTime := none,
    trackingActive := false,
    botTargetX := 50, botTargetY := 50,
    botTickCounter := 0, botWanderAngle := sr.wander }

/-- Lookup of room.players.get(id): the entry of the insertion-ordered map
with the given key, hence the first list element with that id. -/
def lookupPlayer (oid : Option ℕ) (ps : List Player) : Option Player :=
  oid.bind (fun i => ps.find? (fun q => q.id == i))

/-- Nearest non-immune chase target of an IT bot, the strict-inequality scan
of updateBot starting from nearestDist = Infinity (the first candidate always
wins against none, later ones only on strictly smaller distance). -/
def nearestNonImmune (M : MathFns) (bot : Player) (ps : List Player) : Option Player :=
  (ps.foldl
    (fun (acc : Option (Player × ℚ)) p =>
      if p.id == bot.id || p.immune then acc
      else
        let d := M.sqrtQ (distSq p.x p.y bot.x bot.y)
        match acc with
        | none => some (p, d)
        | some qd => if d < qd.2 then some (p, d) else some qd)
    none).map (fun qd => qd.1)

/-- updateBot of server.js, one bot for one tick.  The whole body is expressed
as a single record update at the end so that the fields updateBot never writes
(identity, IT status, immunity, stats) stay untouched definitionally; the
computed values follow the source branch for branch.  ps is the player list
the bot scans (the source scans room.players mid-mutation), itId the rooms
itPlayerId. -/
def updateBot (M : MathFns) (br : BotRand) (ps : List Player) (itId : Option ℕ)
    (dt : ℤ) (bot : Player) : Player :=
  if !bot.isBot || !bot.trackingActive then bot
  else
    let diff := difficultyFor bot.difficulty
    let c := bot.botTickCounter + 1
    let keep : ℚ × ℚ × ℚ := (bot.botTargetX, bot.botTargetY, bot.botWanderAngle)
    let retargeted : ℚ × ℚ × ℚ :=
      if c % diff.reactionTicks = 0 then
        let chased : ℚ × ℚ × ℚ :=
          if bot.isIt then
            match nearestNonImmune M bot ps with
            | some near =>
              let noise := (1 - diff.accuracy) * 20
              (near.x + br.aimX * noise, near.y + br.aimY * noise, bot.botWanderAngle)
            | none => keep
          else
            match lookupPlayer itId ps with
            | some itP =>
              if itP.id == bot.id then keep
              else
                let dx := bot.x - itP.x
                let dy := bot.y - itP.y
                let dist := M.sqrtQ (dx * dx + dy * dy)
                if dist < 30 then
                  let fleeX := bot.x + dx / dist * 25
                  let fleeY := bot.y + dy / dist * 25
                  let tX := max 15 (min 85 fleeX)
                  let tY := max 15 (min 85 fleeY)
                  let noise := (1 - diff.accuracy) * 10
                  (tX + br.aimX * noise, tY + br.aimY * noise, bot.botWanderAngle)
                else
                  let ang := bot.botWanderAngle + br.wanderTurn * (1/2)
                  let wX := bot.x + M.cosQ ang * 8
                  let wY := bot.y + M.sinQ ang * 8
                  let xa : ℚ × ℚ :=
                    if wX < 10 then (15, 0)
                    else if wX > 90 then (85, M.piQ)
                    else (wX, ang)
                  let ya : ℚ × ℚ :=
                    if wY < 10 then (15, M.piQ / 2)
                    else if wY > 90 then (85, -(M.piQ / 2))
                    else (wY, xa.2)
                  (xa.1, ya.1, ya.2)
            | none => keep
        let afterMistake : ℚ × ℚ :=
          if br.mistakeRoll < diff.mistakeChance then
            (10 + br.mistakeX * 80, 10 + br.mistakeY * 80)
          else (chased.1, chased.2.1)
        (max 5 (min 95 afterMistake.1), max 5 (min 95 afterMistake.2), chased.2.2)
      else keep
    let tx := retargeted.1
    let ty := retargeted.2.1
    let speed := diff.speed * ((dt : ℚ) / 100)
    let dx := tx - bot.x
    let dy := ty - bot.y
    let dist := M.sqrtQ (dx * dx + dy * dy)
    let moved : ℚ × ℚ :=
      if dist > 1/10 then
        (bot.x + dx / dist * min speed dist, bot.y + dy / dist * min speed dist)
      else (bot.x, bot.y)
    { bot with
      botTickCounter := c,
      botTargetX := tx, botTargetY := ty, botWanderAngle := retargeted.2.2,
      x := max 0 (min 100 moved.1), y := max 0 (min 100 moved.2) }

/-- Sequential bot update pass of gameTick: the source mutates each bot in
place while iterating, so each update sees the already-updated positions of
earlier bots; rnd hands each list position its own random draws. -/
def botPhase (M : MathFns) (rnd : ℕ → BotRand) (r : Room) (dt : ℤ) : List Player :=
  (List.range r.players.length).foldl
    (fun acc i =>
      updateAt (fun p => if p.isBot then updateBot M (rnd i) acc r.itPlayerId dt p else p) i acc)
    r.players

/-- Per-player stat pass of gameTick, as a single record update: not-IT time
accrual, immunity expiry once now is at or past immuneUntil, and when
trackingActive the distance, corner-time and edge-time accumulation with the
prev snapshot refresh. -/
def statUpdate (M : MathFns) (now dt : ℤ) (p : Player) : Player :=
  { p with
    timeNotIt := if p.isIt then p.timeNotIt else p.timeNotIt + dt,
    immune := p.immune && decide (now < p.immuneUntil),
    totalDistance :=
      if p.trackingActive then p.totalDistance + M.sqrtQ (distSq p.x p.y p.prevX p.prevY)
      else p.totalDistance,
    prevX := if p.trackingActive then p.x else p.prevX,
    prevY := if p.trackingActive then p.y else p.prevY,
    cornerTime :=
      if p.trackingActive ∧ ((p.x < 10 ∨ p.x > 90) ∧ (p.y < 10 ∨ p.y > 90)) then p.cornerTime + dt
      else p.cornerTime,
    edgeTime :=
      if p.trackingActive ∧ (p.x < 8 ∨ p.x > 92 ∨ p.y < 8 ∨ p.y > 92) then p.edgeTime + dt
      else p.edgeTime }

/-- Tag collision scan of gameTick: walk the players in join order, skip the
IT player itself and immune players, and stop at the first player whose
Euclidean distance to IT is below TAG_DISTANCE_PCT.  The source compares
Math.sqrt(dx * dx + dy * dy) < TAG_DISTANCE_PCT; both sides are nonnegative,
so the comparison of squares is the same test. -/
def findTagTarget (itP : Player) : List Player → Option Player
  | [] => none
  | p :: t =>
    if p.id == itP.id || p.immune then findTagTarget itP t
    else if distSq itP.x itP.y p.x p.y < TAG_DISTANCE_PCT * TAG_DISTANCE_PCT then some p
    else findTagTarget itP t

/-- Tagger-side bookkeeping of performTag.  The truthiness tests on
becameItAt and currentItStart follow JS exactly via truthy.  The idleness
test compares Math.sqrt of the targets movement delta against 0.5, embedded
as the comparison of squares. -/
def tagUpdTagger (now : ℤ) (target : Player) (tagger : Player) : Player :=
  let hasBecame := truthy tagger.becameItAt
  let elapsed := now - tagger.becameItAt.getD 0
  let newFast : Option ℤ :=
    if hasBecame then
      match tagger.fastestTag with
      | none => some elapsed
      | some f => if elapsed < f then some elapsed else some f
    else tagger.fastestTag
  let closeStreak := hasBecame && truthy tagger.currentItStart
  { tagger with
    fastestTag := newFast,
    tagsMade := if hasBecame then tagger.tagsMade + 1 else tagger.tagsMade,
    itStreaks :=
      if closeStreak then tagger.itStreaks ++ [now - tagger.currentItStart.getD 0]
      else tagger.itStreaks,
    currentItStart := if closeStreak then none else tagger.currentItStart,
    opportunistTags :=
      if distSq target.x target.y target.prevX target.prevY < (1/2) * (1/2) then
        tagger.opportunistTags + 1
      else tagger.opportunistTags,
    retags := if tagger.lastTaggerId = some target.id then tagger.retags + 1 else tagger.retags,
    isIt := false,
    immune := true,
    immuneUntil := now + TAG_IMMUNITY_MS }

/-- Target-side updates of performTag. -/
def tagUpdTarget (now : ℤ) (taggerId : ℕ) (target : Player) : Player :=
  { target with
    isIt := true, wasEverIt := true,
    becameItAt := some now, currentItStart := some now,
    timesTagged := target.timesTagged + 1,
    lastTaggerId := some taggerId }

/-- performTag of server.js: returns the rewritten player list (the source
mutates the two objects in place; here the entries with the tagger and target
ids are replaced), the updated firstTaggedId, and the tagged broadcast. -/
def performTag (ps : List Player) (tagger target : Player) (now : ℤ) (ft : Option ℕ) :
    List Player × Option ℕ × List Event :=
  let tagger2 := tagUpdTagger now target tagger
  let target2 := tagUpdTarget now tagger.id target
  (ps.map (fun q =>
      if q.id == tagger.id then tagger2
      else if q.id == target.id then target2
      else q),
   (if ft.isNone then some target.id else ft),
   [Event.tagged target.id tagger.id])

/-- Tag phase of gameTick: detection only runs when the IT player exists and
is not immune; at most one transfer happens (the source breaks out of the
loop).  Returns players, itPlayerId, firstTaggedId and the emitted events. -/
def tagPhase (ps : List Player) (itId ftId : Option ℕ) (now : ℤ) :
    List Player × Option ℕ × Option ℕ × List Event :=
  match lookupPlayer itId ps with
  | some itP =>
    if itP.immune then (ps, itId, ftId, [])
    else
      match findTagTarget itP ps with
      | some tgt =>
        let pt := performTag ps itP tgt now ftId
        (pt.1, some tgt.id, pt.2.1, pt.2.2)
      | none => (ps, itId, ftId, [])
  | none => (ps, itId, ftId, [])

/-- Players of a room after the bot pass and the stat pass of one tick. -/
def tickPlayers (M : MathFns) (rnd : ℕ → BotRand) (r : Room) (now : ℤ) : List Player :=
  (botPhase M rnd r (now - r.lastTickTime.getD 0)).map
    (statUpdate M now (now - r.lastTickTime.getD 0))

/-- gameTick of server.js.  Nothing happens unless the room is playing.  The
timeLeft value is only part of the broadcast payload and is omitted with it;
the gameState broadcast itself is emitted after all mutation, after any
tagged event, exactly as in the source. -/
def gameTick (M : MathFns) (rnd : ℕ → BotRand) (r : Room) (now : ℤ) : Room × List Event :=
  if r.state ≠ GameState.playing then (r, [])
  else
    let ps2 := tickPlayers M rnd r now
    let tp := tagPhase ps2 r.itPlayerId r.firstTaggedId now
    let r2 : Room :=
      { r with
        players := tp.1
        itPlayerId := tp.2.1
        firstTaggedId := tp.2.2.1
        lastTickTime := some now }
    (r2, tp.2.2.2 ++ [Event.gameStateEv])

/-- Promotion of one player to IT, the four assignments shared by startGame
and by the disconnect replacement path. -/
def makeIt (now : ℤ) (p : Player) : Player :=
  { p with isIt := true, wasEverIt := true, becameItAt := some now, currentItStart := some now }

/-- startGame of server.js: player k of the join-order list (k models the
uniform random index, always in range) becomes IT, the room enters playing
and the tick clock starts.  The tick scheduler and round timer handles are
external. -/
def startGame (r : Room) (now : ℤ) (k : ℕ) : Room × List Out :=
  match nth r.players k with
  | none => (r, [])
  | some q =>
    let r2 : Room :=
      { r with
        players := updateAt (makeIt now) k r.players
        itPlayerId := some q.id
        state := GameState.playing
        gameStartTime := some now
        lastTickTime := some now }
    (r2, [Out.broadcast Event.gameStartedEv])

/-- startCountdown of server.js: re-checks the player count, flips the state
to countdown, activates tracking for everyone and broadcasts the first count.
The later one-per-second counts and the startGame call run on the external
interval timer. -/
def startCountdown (r : Room) : Room × List Out :=
  if r.players.length < 2 then (r, [])
  else
    let r2 : Room :=
      { r with
        state := GameState.countdown
        players := r.players.map (fun p => { p with trackingActive := true }) }
    (r2, [Out.broadcast (Event.countdownEv COUNTDOWN_SECONDS)])

/-- Host test shared by the addBot, removeBot and startGame message cases:
the issuer is compared against whichever player is currently first in the
join-order map.  An empty room would make the source throw on
firstPlayer.id; empty rooms are destroyed on departure, so the none branch
is unreachable and modeled as a rejection. -/
def isHost (r : Room) (pid : ℕ) : Bool :=
  match r.players.head? with
  | some fp => fp.id == pid
  | none => false

/-- startGame message case of server.js.  Note the guard admits both the
waiting and the ended state; the unused humanCount computation of the source
is dropped. -/
def startGameCase (r : Room) (pid : ℕ) : Room × List Out :=
  if r.state ≠ GameState.waiting ∧ r.state ≠ GameState.ended then (r, [])
  else if !isHost r pid then (r, [])
  else if r.players.length < 2 then
    (r, [Out.toSender (Event.errorMsg "Need at least 2 players to start")])
  else startCountdown r

/-- addBot of server.js: capacity check, unique name pick (an index into the
not-yet-used names, or the BotN fallback), color cycling by join order, and
the new player appended to the map. -/
def addBot (r : Room) (difficulty : String) (nb : NewBotRand) : Option (Room × Player) :=
  if 8 ≤ r.players.length then none
  else
    let available := BOT_NAMES.filter (fun n => !r.usedBotNames.contains n)
    let name :=
      if available.length > 0 then (nth available (nb.nameIdx % available.length)).getD ""
      else "Bot" ++ toString (r.players.length + 1)
    let used2 := if r.usedBotNames.contains name then r.usedBotNames else r.usedBotNames ++ [name]
    let colorIndex := r.players.length % PLAYER_COLORS.length
    let bot := makePlayer nb.botId name ((nth PLAYER_COLORS colorIndex).getD "") true
      (some difficulty) nb.spawn
    some ({ r with players := r.players ++ [bot], usedBotNames := used2 }, bot)

/-- addBot message case: waiting-state only, host only, difficulty validated
with the medium fallback, room-full error reflected to the sender. -/
def addBotCase (r : Room) (pid : ℕ) (msgDifficulty : String) (nb : NewBotRand) :
    Room × List Out :=
  if r.state ≠ GameState.waiting then (r, [])
  else if !isHost r pid then (r, [])
  else
    let difficulty :=
      if msgDifficulty = "easy" ∨ msgDifficulty = "medium" ∨ msgDifficulty = "hard" then
        msgDifficulty
      else "medium"
    match addBot r difficulty nb with
    | none => (r, [Out.toSender (Event.errorMsg "Room is full")])
    | some rb => (rb.1, [Out.broadcast Event.playerJoined])

/-- removeBot message case: waiting-state only, host only; a found bot is
deleted from the map and its name freed.  The source broadcasts the
playerJoined event type for removals as well. -/
def removeBotCase (r : Room) (pid : ℕ) (botId : ℕ) : Room × List Out :=
  if r.state ≠ GameState.waiting then (r, [])
  else if !isHost r pid then (r, [])
  else
    match r.players.find? (fun q => q.id == botId) with
    | some b =>
      if b.isBot then
        let r2 : Room :=
          { r with
            usedBotNames := r.usedBotNames.filter (fun n => n ≠ b.name)
            players := r.players.filter (fun q => q.id ≠ botId) }
        (r2, [Out.broadcast Event.playerJoined])
      else (r, [])
    | none => (r, [])

/-- Per-player reset block of the playAgain case, the Object.assign of
server.js verbatim; the fresh random draws arrive through sr. -/
def resetPlayer (sr : SpawnRand) (p : Player) : Player :=
  { p with
    isIt := false, immune := false, immuneUntil := 0,
    timeNotIt := 0, tagsMade := 0, fastestTag := none,
    becameItAt := none, wasEverIt := false,
    timesTagged := 0, lastTaggerId := none, retags := 0,
    totalDistance := 0, cornerTime := 0, edgeTime := 0,
    itStreaks := [], currentItStart := none, opportunistTags := 0,
    trackingActive := false, lastMoveTime := none,
    x := sr.sx, y := sr.sy,
    botTickCounter := 0, botWanderAngle := sr.wander }

/-- playAgain message case of server.js: only accepted in the ended state;
resets the room bookkeeping and every player, then broadcasts. -/
def playAgainCase (r : Room) (spawn : ℕ → SpawnRand) : Room × List Out :=
  if r.state ≠ GameState.ended then (r, [])
  else
    let r2 : Room :=
      { r with
        state := GameState.waiting
        itPlayerId := none
        firstTaggedId := none
        players := mapWithIdx (fun i p => resetPlayer (spawn i) p) r.players }
    (r2, [Out.broadcast Event.playAgainEv])

/-- move message case: position clamped to the arena on every update. -/
def moveCase (r : Room) (pid : ℕ) (mx my : ℚ) (now : ℤ) : Room × List Out :=
  if r.state ≠ GameState.playing ∧ r.state ≠ GameState.countdown then (r, [])
  else
    let r2 : Room :=
      { r with
        players := r.players.map (fun p =>
          if p.id == pid then
            { p with x := max 0 (min 100 mx), y := max 0 (min 100 my), lastMoveTime := some now }
          else p) }
    (r2, [])

/-- Close-handler logic of server.js for a departing player: the player is
deleted from the map; an empty or all-bot room is destroyed (none); otherwise
if the departed player held IT in a playing room, a replacement is drawn
uniformly (k models the draw, taken modulo the remaining count) and promoted
immediately. -/
def disconnect (r : Room) (pid : ℕ) (now : ℤ) (k : ℕ) : Option Room :=
  let ps := r.players.filter (fun p => p.id ≠ pid)
  if ps.isEmpty || ps.all (fun p => p.isBot) then none
  else if r.state = GameState.playing ∧ r.itPlayerId = some pid then
    match nth ps (k % ps.length) with
    | some q =>
      some { r with players := updateAt (makeIt now) (k % ps.length) ps, itPlayerId := some q.id }
    | none => some { r with players := ps }
  else some { r with players := ps }

/-- Mutable state of the assignAwards pass: the awards dictionary keyed by
player id and the claimed set. -/
structure AwSt where
  awards : ℕ → Option Award
  assigned : List ℕ

/-- Empty award state. -/
def awSt0 : AwSt := { awards := fun _ => none, assigned := [] }

/-- Record an award for a player id and claim the id. -/
def awAssign (st : AwSt) (i : ℕ) (a : Award) : AwSt :=
  { awards := fun j => if j = i then some a else st.awards j,
    assigned := i :: st.assigned }

/-- maxBy of assignAwards: scan in join order with a strict comparison against
the best value so far, starting from -1, skipping claimed players; the result
only counts if the best value is strictly positive. -/
def maxBy (key : Player → ℚ) (st : AwSt) (l : List Player) : Option Player :=
  let best := l.foldl
    (fun (acc : Option Player × ℚ) p =>
      if !st.assigned.contains p.id ∧ key p > acc.2 then (some p, key p) else acc)
    (none, -1)
  if best.2 > 0 then best.1 else none

/-- First assignAwards pass: every not-yet-claimed player who was never IT
gets the escape artist award. -/
def phaseNeverIt (l : List Player) (st : AwSt) : AwSt :=
  l.foldl
    (fun st p =>
      if !p.wasEverIt ∧ !st.assigned.contains p.id then awAssign st p.id escapeArtist else st)
    st

/-- Second pass: the first-ever-tagged player, when recorded and unclaimed,
gets the sacrificial lamb award. -/
def phaseFirstTagged (ft : Option ℕ) (st : AwSt) : AwSt :=
  match ft with
  | some i => if !st.assigned.contains i then awAssign st i sacrificialLamb else st
  | none => st

/-- One highest-value category: assign the award to the maxBy winner when one
exists. -/
def awardCat (key : Player → ℚ) (a : Award) (l : List Player) (st : AwSt) : AwSt :=
  match maxBy key st l with
  | some p => awAssign st p.id a
  | none => st

/-- Award state after all priority categories, before the filler pass, in the
source order: never IT, first tagged, distance, re-tags, times tagged,
corner time, opportunist tags, edge time. -/
def preFillerAwards (l : List Player) (ft : Option ℕ) : AwSt :=
  awSt0
  |> phaseNeverIt l
  |> phaseFirstTagged ft
  |> awardCat (fun p => p.totalDistance) panicMouse l
  |> awardCat (fun p => (p.retags : ℚ)) revengeSeeker l
  |> awardCat (fun p => (p.timesTagged : ℚ)) magnetToDanger l
  |> awardCat (fun p => (p.cornerTime : ℚ)) cornerRat l
  |> awardCat (fun p => (p.opportunistTags : ℚ)) opportunistAw l
  |> awardCat (fun p => (p.edgeTime : ℚ)) anchoredToWalls l

/-- Filler pass of assignAwards: any player whose id has no award yet gets the
panic mouse award; the claimed set is not consulted or updated here, exactly
as in the source. -/
def phaseFiller (l : List Player) (st : AwSt) : AwSt :=
  l.foldl
    (fun st p =>
      if (st.awards p.id).isNone then
        { st with awards := fun j => if j = p.id then some panicMouse else st.awards j }
      else st)
    st

/-- assignAwards of server.js as the finished id-to-award dictionary. -/
def assignAwards (l : List Player) (ft : Option ℕ) : ℕ → Option Award :=
  (phaseFiller l (preFillerAwards l ft)).awards

/-- End-of-round streak close of endGame: a player holding IT with an open
streak gets it closed at the round-end timestamp. -/
def closeEndStreak (now : ℤ) (p : Player) : Player :=
  if p.isIt ∧ truthy p.currentItStart then
    { p with itStreaks := p.itStreaks ++ [now - p.currentItStart.getD 0] }
  else p

/-- Score formula of endGame for one player, given the three round-wide
aggregates and the id of the player who is IT at round end.  Math.floor of
timeNotIt / 100 is Int.fdiv; the comparison of the players shortest streak
with the round minimum uses the option-valued minima, which agree with the JS
comparison against a finite minimum (the Infinity case only arises when no
player has a streak, and then the guard on a nonempty streak list already
fails). -/
def computeScore (minStreak : Option ℤ) (maxRe : Option ℕ) (maxDist : Option ℚ)
    (itId : Option ℕ) (p : Player) : ℤ :=
  let s1 := Int.fdiv p.timeNotIt 100
  let s2 := s1 + (if p.wasEverIt then 0 else 10)
  let s3 := s2 + (if ¬p.itStreaks.isEmpty ∧ minList p.itStreaks = minStreak then 10 else 0)
  let s4 := s3 + (if 0 < p.retags ∧ some p.retags = maxRe then 10 else 0)
  let s5 := s4 + (if 0 < p.totalDistance ∧ some p.totalDistance = maxDist then 10 else 0)
  if itId = some p.id then max 0 (s5 - 20) else s5

/-- One row of the gameEnded leaderboard handoff; the serialized entity and
stats block only replay player fields and are represented by the fields the
claims inspect. -/
structure ScoredEntry where
  id : ℕ
  name : String
  color : String
  score : ℤ
  isLoser : Bool
  award : Option Award
deriving DecidableEq

/-- Scoring part of endGame: close open IT streaks at the round end, compute
the round-wide maxima (distance, re-tags) and the round minimum single streak
among players who were IT, assign awards, and emit one scored row per player
in join order.  The later sort by descending score and rank numbering leave
every row intact and no claim mentions ranks, so the rows are produced
unsorted. -/
def endGameScored (r : Room) (now : ℤ) : List ScoredEntry :=
  let ps := r.players.map (closeEndStreak now)
  let maxDist := maxListQ (ps.map (fun p => p.totalDistance))
  let maxRe := maxListN (ps.map (fun p => p.retags))
  let minStreak := minList (ps.filterMap (fun p => minList p.itStreaks))
  let awards := assignAwards ps r.firstTaggedId
  ps.map (fun p =>
    { id := p.id, name := p.name, color := p.color,
      score := computeScore minStreak maxRe maxDist r.itPlayerId p,
      isLoser := r.itPlayerId = some p.id,
      award := awards p.id })

/-- Global room registry, the rooms Map keyed by room code. -/
def Registry : Type := List (String × Room)

/-- rooms.get. -/
def lookupRoom (rs : Registry) (c : String) : Option Room :=
  (List.find? (fun e => e.1 = c) rs).map (fun e => e.2)

/-- rooms.delete, as fired by the unconditional setTimeout at the end of
endGame; no handle to this timeout is ever stored, so nothing can cancel
it. -/
def deleteRoomEntry (rs : Registry) (c : String) : Registry :=
  List.filter (fun e => e.1 ≠ c) rs

/-- Absolute time at which the endGame setTimeout fires, 30000 ms after the
round ends. -/
def roomDeletionAt (endedAt : ℤ) : ℤ := endedAt + 30000

/-- Dispatch of a room-scoped intent: the message handler resolves the
senders room code and silently drops the message when the room no longer
exists; otherwise the per-case handler runs and the mutated room replaces
the registry entry (the source mutates it in place). -/
def handleScoped (rs : Registry) (c : Option String) (f : Room → Room × List Out) :
    Registry × List Out :=
  match c with
  | none => (rs, [])
  | some code =>
    match lookupRoom rs code with
    | none => (rs, [])
    | some r =>
      let ro := f r
      (List.map (fun e => if e.1 = code then (code, ro.1) else e) rs, ro.2)

/-- Identity and IT flag of a player, the only data the one-IT invariant
reads. -/
def pidIt (p : Player) : ℕ × Bool := (p.id, p.isIt)

/-- Ids of a player list in join order. -/
def idsOf (l : List Player) : List ℕ := l.map Player.id

/-- Number of players currently flagged IT. -/
def countIt (l : List Player) : ℕ := l.countP (fun p => p.isIt)

/-- Consistency of the IT bookkeeping of a room: itPlayerId names a present
player and a player is flagged IT exactly when it carries that id. -/
def ItInv (r : Room) : Prop :=
  ∃ itId, r.itPlayerId = some itId ∧
    (∀ p ∈ r.players, p.isIt = true ↔ p.id = itId) ∧ itId ∈ idsOf r.players

/-- Predicate a player must satisfy to be tagged in the scan of gameTick: not
the IT player, not immune, and within the tag distance (squared form of the
Euclidean comparison). -/
def tagHit (itP q : Player) : Bool :=
  q.id != itP.id && !q.immune &&
    decide (distSq itP.x itP.y q.x q.y < TAG_DISTANCE_PCT * TAG_DISTANCE_PCT)

/-- Recognizer for the tagged broadcast among emitted events. -/
def isTaggedEv : Event → Bool
  | Event.tagged _ _ => true
  | _ => false

/-- Concrete fixtures used by the witness theorems. -/
def basePlayer (i : ℕ) : Player :=
  makePlayer i ("P" ++ toString i) "#FF4B6E" false none { sx := 30, sy := 30, wander := 0 }

def mathId : MathFns := { sqrtQ := fun q => q, cosQ := fun _ => 0, sinQ := fun _ => 0, piQ := 0 }

def noRand : ℕ → BotRand := fun _ =>
  { aimX := 0, aimY := 0, wanderTurn := 0, mistakeRoll := 1, mistakeX := 0, mistakeY := 0 }

def spawnC : ℕ → SpawnRand := fun _ => { sx := 40, sy := 40, wander := 0 }

def nbW : NewBotRand := { botId := 9, nameIdx := 0, spawn := { sx := 40, sy := 40, wander := 0 } }

def pImmW : Player := { basePlayer 3 with immune := true, immuneUntil := 4000 }

def roomW : Room :=
  { code := "AAAAA", state := GameState.waiting,
    players := [basePlayer 0, { basePlayer 1 with x := 70, y := 70 }],
    itPlayerId := none, gameStartTime := none, lastTickTime := none,
    firstTaggedId := none, usedBotNames := [] }

def roomSolo : Room := { roomW with players := [basePlayer 0] }

def roomE : Room := { roomW with state := GameState.ended }

def roomT : Room :=
  { code := "TTTTT", state := GameState.playing,
    players :=
      [makeIt 1000 { basePlayer 0 with x := 50, y := 50, trackingActive := true },
       { basePlayer 1 with x := 52, y := 50, trackingActive := true }],
    itPlayerId := some 0, gameStartTime := some 1000, lastTickTime := some 1000,
    firstTaggedId := none, usedBotNames := [] }

def pStale0 : Player :=
  { basePlayer 0 with
    isIt := true
    wasEverIt := true
    becameItAt := some 1000
    currentItStart := some 1000 }

def roomStale : Room :=
  { code := "RRRRR", state := GameState.ended,
    players := [pStale0, { basePlayer 1 with x := 70, y := 70 }],
    itPlayerId := some 0, gameStartTime := some 1000, lastTickTime := some 2000,
    firstTaggedId := none, usedBotNames := [] }

def playerS (i : ℕ) : Player :=
  { basePlayer i with totalDistance := 50, timeNotIt := 30000, trackingActive := true }

def playerS2 : Player :=
  { basePlayer 2 with
    isIt := true
    wasEverIt := true
    becameItAt := some 1000
    currentItStart := some 1000
    timeNotIt := 10000 }

def roomS : Room :=
  { code := "SSSSS", state := GameState.ended,
    players := [playerS 0, playerS 1, playerS2],
    itPlayerId := some 2, gameStartTime := some 1000, lastTickTime := some 2000,
    firstTaggedId := none, usedBotNames := [] }

def dummyEntry : ScoredEntry :=
  { id := 0, name := "", color := "", score := 0, isLoser := false, award := none }

def pAw7 : Player :=
  { basePlayer 0 with wasEverIt := true, totalDistance := 5, retags := 2, timesTagged := 3 }

def pEA7 : Player :=
  { basePlayer 1 with
    totalDistance := 100
    retags := 9
    timesTagged := 9
    cornerTime := 9
    opportunistTags := 9
    edgeTime := 9 }

def pB8 : Player := { basePlayer 1 with wasEverIt := true }

/-- Invariant carried through the award passes for a player already granted
the escape artist award: the dictionary still maps the id to that award and
the id is in the claimed set. -/
def EAgood (st : AwSt) (i : ℕ) : Prop :=
  st.awards i = some escapeArtist ∧ st.assigned.contains i = true

def lAw7 : List Player := [pAw7, pEA7]

def lAw8 : List Player := [pAw7, pB8]

def itW3 : Player := { basePlayer 0 with isIt := true, x := 50, y := 50 }

def pFar3 : Player := { basePlayer 1 with x := 54, y := 50 }

def pNear3 : Player := { basePlayer 2 with x := 51, y := 50 }

def lW3 : List Player := [itW3, pFar3, pNear3]

lemma nth_mem {α : Type} : ∀ {l : List α} {i : ℕ} {a : α}, nth l i = some a → a ∈ l := by
  intro l
  induction l with
  | nil => intro i a h; cases i <;> simp [nth] at h
  | cons x t ih =>
    intro i a h
    cases i with
    | zero => simp [nth] at h; simp [h]
    | succ n => exact List.mem_cons_of_mem x (ih h)

lemma mem_iff_nth {α : Type} {a : α} : ∀ {l : List α}, a ∈ l ↔ ∃ i, nth l i = some a := by
  intro l
  induction l with
  | nil =>
    constructor
    · intro h; exact absurd h (List.not_mem_nil a)
    · rintro ⟨i, hi⟩; cases i <;> simp [nth] at hi
  | cons x t ih =>
    constructor
    · intro h
      rcases List.mem_cons.mp h with h | h
      · exact ⟨0, by simp [nth, h]⟩
      · rcases ih.mp h with ⟨i, hi⟩
        exact ⟨i + 1, hi⟩
    · rintro ⟨i, hi⟩
      cases i with
      | zero =>
        have hx : x = a := by simpa [nth] using hi
        rw [← hx]
        exact List.mem_cons_self x t
      | succ n => exact List.mem_cons_of_mem x (ih.mpr ⟨n, hi⟩)

lemma nth_map {α β : Type} (f : α → β) :
    ∀ (l : List α) (i : ℕ), nth (l.map f) i = (nth l i).map f := by
  intro l
  induction l with
  | nil => intro i; cases i <;> rfl
  | cons a t ih =>
    intro i
    cases i with
    | zero => rfl
    | succ n => exact ih n

lemma updateAt_nth {α : Type} (f : α → α) :
    ∀ (l : List α) (k j : ℕ),
      nth (updateAt f k l) j = if j = k then (nth l j).map f else nth l j := by
  intro l
  induction l with
  | nil =>
    intro k j
    cases k <;> cases j <;> simp [updateAt, nth]
  | cons a t ih =>
    intro k j
    cases k with
    | zero =>
      cases j with
      | zero => rfl
      | succ m => simp [updateAt, nth]
    | succ n =>
      cases j with
      | zero => simp [updateAt, nth]
      | succ m =>
        have := ih n m
        simp only [updateAt, nth, this]
        by_cases h : m = n
        · simp [h]
        · simp [h, fun hc => h (Nat.succ_injective hc)]

lemma updateAt_map {α β : Type} (g : α → β) (f : α → α) (h : ∀ a, g (f a) = g a) :
    ∀ (k : ℕ) (l : List α), (updateAt f k l).map g = l.map g := by
  intro k l
  induction l generalizing k with
  | nil => cases k <;> rfl
  | cons a t ih =>
    cases k with
    | zero => simp [updateAt, h]
    | succ n => simp [updateAt, ih]

lemma map_of_pointwise {α β : Type} {g : α → β} {s : α → α} (h : ∀ a, g (s a) = g a) :
    ∀ l : List α, (l.map s).map g = l.map g := by
  intro l
  induction l with
  | nil => rfl
  | cons a t ih => simp [h, ih]

lemma nodup_nth_ne {l : List ℕ} :
    l.Nodup → ∀ {i j : ℕ} {a b : ℕ}, i ≠ j → nth l i = some a → nth l j = some b → a ≠ b := by
  induction l with
  | nil => intro _ i j a b _ ha; cases i <;> simp [nth] at ha
  | cons x t ih =>
    intro hnd i j a b hij ha hb
    rcases List.nodup_cons.mp hnd with ⟨hx, ht⟩
    cases i with
    | zero =>
      cases j with
      | zero => exact absurd rfl hij
      | succ m =>
        simp [nth] at ha
        intro hab
        exact hx (ha ▸ hab ▸ nth_mem hb)
    | succ n =>
      cases j with
      | zero =>
        simp [nth] at hb
        intro hab
        exact hx (hb ▸ hab ▸ nth_mem ha)
      | succ m =>
        exact ih ht (fun hc => hij (by rw [hc])) ha hb

@[simp] lemma idsOf_nil : idsOf [] = [] := rfl

@[simp] lemma idsOf_cons (q : Player) (t : List Player) : idsOf (q :: t) = q.id :: idsOf t := rfl

lemma countIt_eq_one : ∀ {l : List Player} {itId : ℕ},
    (∀ p ∈ l, p.isIt = true ↔ p.id = itId) →
    (idsOf l).Nodup → itId ∈ idsOf l → countIt l = 1 := by
  intro l
  induction l with
  | nil => intro itId _ _ hm; simp at hm
  | cons q t ih =>
    intro itId hc hnd hm
    rw [idsOf_cons] at hnd hm
    have hnd2 := List.nodup_cons.mp hnd
    by_cases hq : q.id = itId
    · have hqit : q.isIt = true := (hc q (List.mem_cons_self q t)).mpr hq
      have hzero : List.countP (fun p => p.isIt) t = 0 := by
        rw [List.countP_eq_zero]
        intro p hp
        simp only [Bool.not_eq_true]
        by_contra hcon
        simp only [Bool.not_eq_false] at hcon
        have hpe : p.id = itId := (hc p (List.mem_cons_of_mem q hp)).mp hcon
        have hin : q.id ∈ idsOf t := by
          rw [idsOf, hq, ← hpe]
          exact List.mem_map_of_mem Player.id hp
        exact hnd2.1 hin
      rw [countIt, List.countP_cons, hzero]
      simp [hqit]
    · have hqit : q.isIt = false := by
        by_contra hcon
        simp only [Bool.not_eq_false] at hcon
        exact hq ((hc q (List.mem_cons_self q t)).mp hcon)
      have hm2 : itId ∈ idsOf t := by
        rcases List.mem_cons.mp hm with h | h
        · exact absurd h.symm hq
        · exact h
      have hrec := ih (fun p hp => hc p (List.mem_cons_of_mem q hp)) hnd2.2 hm2
      rw [countIt, List.countP_cons, hqit]
      simpa [countIt] using hrec

lemma updateBot_pidIt (M : MathFns) (br : BotRand) (ps : List Player) (itId : Option ℕ)
    (dt : ℤ) (p : Player) : pidIt (updateBot M br ps itId dt p) = pidIt p := by
  rw [updateBot]
  split <;> rfl

lemma statUpdate_pidIt (M : MathFns) (now dt : ℤ) (p : Player) :
    pidIt (statUpdate M now dt p) = pidIt p := rfl

lemma foldl_updateAt_map {γ : Type} (g : Player → γ)
    (F : List Player → ℕ → Player → Player)
    (hF : ∀ acc i p, g (F acc i p) = g p) :
    ∀ (idx : List ℕ) (l : List Player),
      (idx.foldl (fun acc i => updateAt (F acc i) i acc) l).map g = l.map g := by
  intro idx
  induction idx with
  | nil => intro l; rfl
  | cons i t ih =>
    intro l
    rw [List.foldl_cons, ih, updateAt_map g (F l i) (hF l i)]

lemma botPhase_pidIt (M : MathFns) (rnd : ℕ → BotRand) (r : Room) (dt : ℤ) :
    (botPhase M rnd r dt).map pidIt = r.players.map pidIt := by
  rw [botPhase]
  exact foldl_updateAt_map pidIt
    (fun acc i p => if p.isBot then updateBot M (rnd i) acc r.itPlayerId dt p else p)
    (fun acc i p => by
      by_cases h : p.isBot
      · simp [h, updateBot_pidIt]
      · simp [h])
    (List.range r.players.length) r.players

lemma tickPlayers_pidIt (M : MathFns) (rnd : ℕ → BotRand) (r : Room) (now : ℤ) :
    (tickPlayers M rnd r now).map pidIt = r.players.map pidIt := by
  rw [tickPlayers, map_of_pointwise (statUpdate_pidIt M now _), botPhase_pidIt]

lemma pidIt_transfer {l l2 : List Player} {itId : ℕ}
    (hmap : l2.map pidIt = l.map pidIt)
    (hc : ∀ p ∈ l, p.isIt = true ↔ p.id = itId) :
    ∀ p ∈ l2, p.isIt = true ↔ p.id = itId := by
  intro p hp
  have : pidIt p ∈ l.map pidIt := hmap ▸ List.mem_map_of_mem pidIt hp
  rcases List.mem_map.mp this with ⟨q, hq, hpq⟩
  have hid : q.id = p.id := congrArg Prod.fst hpq
  have hit : q.isIt = p.isIt := congrArg Prod.snd hpq
  rw [← hid, ← hit]
  exact hc q hq

lemma idsOf_of_pidIt {l l2 : List Player} (hmap : l2.map pidIt = l.map pidIt) :
    idsOf l2 = idsOf l := by
  have h2 : (l2.map pidIt).map Prod.fst = (l.map pidIt).map Prod.fst := by rw [hmap]
  simpa [idsOf, List.map_map, Function.comp] using h2

lemma findTagTarget_spec {itP : Player} :
    ∀ {l : List Player} {t : Player}, findTagTarget itP l = some t →
      t ∈ l ∧ t.id ≠ itP.id ∧ t.immune = false ∧
        distSq itP.x itP.y t.x t.y < TAG_DISTANCE_PCT * TAG_DISTANCE_PCT := by
  intro l
  induction l with
  | nil => intro t h; exact absurd h (by simp [findTagTarget])
  | cons p rest ih =>
    intro t h
    rw [findTagTarget] at h
    by_cases hskip : p.id == itP.id || p.immune
    · rw [if_pos hskip] at h
      rcases ih h with ⟨hmem, hrest⟩
      exact ⟨List.mem_cons_of_mem p hmem, hrest⟩
    · rw [if_neg hskip] at h
      by_cases hd : distSq itP.x itP.y p.x p.y < TAG_DISTANCE_PCT * TAG_DISTANCE_PCT
      · rw [if_pos hd] at h
        have hpt : p = t := Option.some_inj.mp h
        subst hpt
        simp only [Bool.or_eq_true, beq_iff_eq, not_or, Bool.not_eq_true] at hskip
        exact ⟨List.mem_cons_self p rest, hskip.1, hskip.2, hd⟩
      · rw [if_neg hd] at h
        rcases ih h with ⟨hmem, hrest⟩
        exact ⟨List.mem_cons_of_mem p hmem, hrest⟩

lemma performTag_map_pid (ps : List Player) (tagger target : Player) (now : ℤ) (ft : Option ℕ) :
    idsOf (performTag ps tagger target now ft).1 = idsOf ps := by
  rw [performTag, idsOf, idsOf, List.map_map]
  refine List.map_congr_left ?_
  intro q _
  simp only [Function.comp]
  by_cases h1 : q.id == tagger.id
  · simp only [h1, if_pos]
    have : q.id = tagger.id := by simpa using h1
    simp [tagUpdTagger, this]
  · simp only [h1]
    by_cases h2 : q.id == target.id
    · simp only [h2, if_pos]
      have : q.id = target.id := by simpa using h2
      simp [tagUpdTarget, this]
    · simp [h1, h2]

lemma performTag_consistent {ps : List Player} {itId : ℕ} {tagger target : Player}
    (now : ℤ) (ft : Option ℕ)
    (hc : ∀ p ∈ ps, p.isIt = true ↔ p.id = itId)
    (htg : tagger.id = itId) (hne : target.id ≠ tagger.id) :
    ∀ q ∈ (performTag ps tagger target now ft).1, q.isIt = true ↔ q.id = target.id := by
  intro q hq
  rw [performTag] at hq
  rcases List.mem_map.mp hq with ⟨q0, hq0, hform⟩
  by_cases h1 : q0.id == tagger.id
  · rw [if_pos h1] at hform
    rw [← hform]
    constructor
    · intro hcon; exact absurd hcon (by simp [tagUpdTagger])
    · intro hid
      have : tagger.id = target.id := by
        have hq0id : (tagUpdTagger now target tagger).id = tagger.id := by simp [tagUpdTagger]
        rw [← hq0id, hid]
      exact absurd this.symm hne
  · rw [if_neg (by simpa using h1)] at hform
    by_cases h2 : q0.id == target.id
    · rw [if_pos h2] at hform
      rw [← hform]
      simp [tagUpdTarget]
    · rw [if_neg (by simpa using h2)] at hform
      rw [← hform]
      have hq0c := hc q0 hq0
      constructor
      · intro hcon
        have : q0.id = itId := hq0c.mp hcon
        exact absurd (this.trans htg.symm) (by simpa using h1)
      · intro hid
        exact absurd hid (by simpa using h2)

lemma tagPhase_inv {ps : List Player} {itId : ℕ} (ft : Option ℕ) (now : ℤ)
    (hc : ∀ p ∈ ps, p.isIt = true ↔ p.id = itId)
    (hm : itId ∈ idsOf ps) :
    ∃ itId2,
      (tagPhase ps (some itId) ft now).2.1 = some itId2 ∧
      (∀ p ∈ (tagPhase ps (some itId) ft now).1, p.isIt = true ↔ p.id = itId2) ∧
      itId2 ∈ idsOf (tagPhase ps (some itId) ft now).1 ∧
      idsOf (tagPhase ps (some itId) ft now).1 = idsOf ps := by
  rcases List.mem_map.mp (by simpa [idsOf] using hm) with ⟨w, hw, hwid⟩
  have hfind : (ps.find? (fun q => q.id == itId)).isSome := by
    rw [List.find?_isSome]
    exact ⟨w, hw, by simp [hwid]⟩
  rcases Option.isSome_iff_exists.mp hfind with ⟨itP, hitP⟩
  have hitPid : itP.id = itId := by
    have := List.find?_some hitP
    simpa using this
  have hlk : lookupPlayer (some itId) ps = some itP := by
    simp [lookupPlayer, hitP]
  rw [tagPhase, hlk]
  by_cases himm : itP.immune
  · simp only [himm, if_true]
    exact ⟨itId, rfl, hc, hm, trivial⟩
  · simp only [himm, Bool.false_eq_true, if_false]
    cases hft : findTagTarget itP ps with
    | none => exact ⟨itId, rfl, hc, hm, rfl⟩
    | some tgt =>
      rcases findTagTarget_spec hft with ⟨htmem, htne, _, _⟩
      refine ⟨tgt.id, rfl, ?_, ?_, ?_⟩
      · exact performTag_consistent now ft hc hitPid htne
      · rw [performTag_map_pid]
        exact List.mem_map_of_mem Player.id htmem
      · exact performTag_map_pid ps itP tgt now ft

lemma nth_lt {α : Type} : ∀ {l : List α} {j : ℕ}, j < l.length → ∃ a, nth l j = some a := by
  intro l
  induction l with
  | nil => intro j h; exact absurd h (by simp)
  | cons x t ih =>
    intro j h
    cases j with
    | zero => exact ⟨x, rfl⟩
    | succ n => exact ih (Nat.lt_of_succ_lt_succ h)

lemma updateAt_makeIt_consistent {l : List Player} {k : ℕ} {q : Player} (now : ℤ)
    (hget : nth l k = some q)
    (hall : ∀ p ∈ l, p.isIt = false)
    (hnd : (idsOf l).Nodup) :
    (∀ p ∈ updateAt (makeIt now) k l, p.isIt = true ↔ p.id = q.id) ∧
    idsOf (updateAt (makeIt now) k l) = idsOf l ∧ q.id ∈ idsOf l := by
  refine ⟨?_, ?_, ?_⟩
  · intro p hp
    rcases mem_iff_nth.mp hp with ⟨j, hj⟩
    rw [updateAt_nth] at hj
    by_cases hjk : j = k
    · rw [if_pos hjk, hjk, hget] at hj
      have hqp : makeIt now q = p := by simpa using hj
      rw [← hqp]
      simp [makeIt]
    · rw [if_neg hjk] at hj
      have hpfalse : p.isIt = false := hall p (nth_mem hj)
      constructor
      · intro hcon
        rw [hpfalse] at hcon
        exact absurd hcon (by simp)
      · intro hid
        have hnthj : nth (idsOf l) j = some p.id := by rw [idsOf, nth_map, hj]; rfl
        have hnthk : nth (idsOf l) k = some q.id := by rw [idsOf, nth_map, hget]; rfl
        exact absurd hid (nodup_nth_ne hnd hjk hnthj hnthk)
  · exact updateAt_map Player.id (makeIt now) (fun p => rfl) k l
  · exact List.mem_map_of_mem Player.id (nth_mem hget)

lemma gameTick_keeps (M : MathFns) (rnd : ℕ → BotRand) (r : Room) (now : ℤ)
    (hinv : ItInv r) :
    ItInv (gameTick M rnd r now).1 ∧
      idsOf (gameTick M rnd r now).1.players = idsOf r.players := by
  rcases hinv with ⟨itId, hit, hc, hm⟩
  rw [gameTick]
  by_cases hst : r.state ≠ GameState.playing
  · rw [if_pos hst]
    exact ⟨⟨itId, hit, hc, hm⟩, rfl⟩
  · rw [if_neg hst]
    have hmap := tickPlayers_pidIt M rnd r now
    have hc2 : ∀ p ∈ tickPlayers M rnd r now, p.isIt = true ↔ p.id = itId :=
      pidIt_transfer hmap hc
    have hids2 : idsOf (tickPlayers M rnd r now) = idsOf r.players := idsOf_of_pidIt hmap
    have hm2 : itId ∈ idsOf (tickPlayers M rnd r now) := hids2 ▸ hm
    obtain ⟨itId2, h1, h2, h3, h4⟩ := tagPhase_inv r.firstTaggedId now hc2 hm2
    rw [hit]
    exact ⟨⟨itId2, h1, h2, h3⟩, h4.trans hids2⟩

lemma disconnect_keeps {r : Room} {pid : ℕ} {now : ℤ} {k : ℕ} {r2 : Room}
    (hres : disconnect r pid now k = some r2)
    (hst : r.state = GameState.playing)
    (hinv : ItInv r) (hnd : (idsOf r.players).Nodup) :
    ItInv r2 ∧ (idsOf r2.players).Nodup := by
  rcases hinv with ⟨itId, hit, hc, hm⟩
  have hsub : (idsOf (r.players.filter (fun p => p.id ≠ pid))).Nodup := by
    have hs : (r.players.filter (fun p => p.id ≠ pid)).Sublist r.players :=
      List.filter_sublist r.players
    exact List.Nodup.sublist (List.Sublist.map Player.id hs) hnd
  have hcf : ∀ p ∈ r.players.filter (fun p => p.id ≠ pid), p.isIt = true ↔ p.id = itId :=
    fun p hp => hc p (List.mem_of_mem_filter hp)
  rw [disconnect] at hres
  by_cases hdead : (r.players.filter (fun p => p.id ≠ pid)).isEmpty
      || (r.players.filter (fun p => p.id ≠ pid)).all (fun p => p.isBot)
  · rw [if_pos hdead] at hres
    exact absurd hres (by simp)
  · rw [if_neg hdead] at hres
    have hlen : 0 < (r.players.filter (fun p => p.id ≠ pid)).length := by
      cases hps : r.players.filter (fun p => p.id ≠ pid) with
      | nil =>
        exfalso
        rw [hps] at hdead
        simp at hdead
      | cons a t => exact Nat.succ_pos t.length
    by_cases hcond : r.state = GameState.playing ∧ r.itPlayerId = some pid
    · rw [if_pos hcond] at hres
      have hpide : itId = pid := by
        have := hit.symm.trans hcond.2
        simpa using this
      have hall : ∀ p ∈ r.players.filter (fun p => p.id ≠ pid), p.isIt = false := by
        intro p hp
        have hne : p.id ≠ pid := by
          have := List.of_mem_filter hp
          simpa using this
        by_contra hcon
        simp only [Bool.not_eq_false] at hcon
        exact hne (((hcf p hp).mp hcon).trans hpide)
      obtain ⟨q, hq⟩ := nth_lt (Nat.mod_lt k hlen)
      rw [hq] at hres
      obtain ⟨hcons, hids, hqm⟩ := updateAt_makeIt_consistent now hq hall hsub
      have hr2 : r2 = { r with
          players := updateAt (makeIt now)
            (k % (r.players.filter (fun p => p.id ≠ pid)).length)
            (r.players.filter (fun p => p.id ≠ pid)),
          itPlayerId := some q.id } := by
        exact (Option.some_inj.mp hres).symm
      rw [hr2]
      refine ⟨⟨q.id, rfl, hcons, ?_⟩, ?_⟩
      · rw [hids] at *
        exact hqm
      · rw [hids] at *
        exact hsub
    · rw [if_neg hcond] at hres
      have hr2 : r2 = { r with players := r.players.filter (fun p => p.id ≠ pid) } :=
        (Option.some_inj.mp hres).symm
      have hpidne : itId ≠ pid := by
        intro he
        exact hcond ⟨hst, by rw [← he]; exact hit⟩
      obtain ⟨w, hw, hwid⟩ := List.mem_map.mp (by simpa [idsOf] using hm)
      have hwne : w.id ≠ pid := by rw [hwid]; exact hpidne
      have hwmem : w ∈ r.players.filter (fun p => p.id ≠ pid) := by
        rw [List.mem_filter]
        exact ⟨hw, by simpa using hwne⟩
      rw [hr2]
      exact ⟨⟨itId, hit, hcf, by rw [← hwid]; exact List.mem_map_of_mem Player.id hwmem⟩, hsub⟩

/-- Preservation facts around the single-IT bookkeeping, delimiting where the
exactly-one-IT property does hold.  Part one: the countdown completion
(startGame) promotes exactly one player out of an all-not-IT room, which is
the shape of a freshly created or playAgain-reset room.  Part two: a full
gameTick, tag transfer included, keeps the count at one given the IT
bookkeeping consistency ItInv.  Part three: a disconnect that leaves the
room alive while playing, including the immediate replacement when the
departing player held IT, keeps the count at one.  Ids are assumed unique,
which holds for uuid-keyed players.  The all-not-IT precondition of part one
is not established on the restart path evaluated in c1_two_it_from_restart,
which is exactly where the source breaks the invariant. -/
theorem singleIt_preserved :
    (∀ (r : Room) (now : ℤ) (k : ℕ) (q : Player),
        nth r.players k = some q →
        (∀ p ∈ r.players, p.isIt = false) →
        (idsOf r.players).Nodup →
        countIt (startGame r now k).1.players = 1)
    ∧ (∀ (M : MathFns) (rnd : ℕ → BotRand) (r : Room) (now : ℤ),
        ItInv r → (idsOf r.players).Nodup →
        countIt (gameTick M rnd r now).1.players = 1)
    ∧ (∀ (r : Room) (pid : ℕ) (now : ℤ) (k : ℕ) (r2 : Room),
        disconnect r pid now k = some r2 →
        r.state = GameState.playing → ItInv r → (idsOf r.players).Nodup →
        countIt r2.players = 1) := by
  refine ⟨?_, ?_, ?_⟩
  · intro r now k q hget hall hnd
    obtain ⟨hcons, hids, hqm⟩ := updateAt_makeIt_consistent now hget hall hnd
    rw [startGame, hget]
    exact countIt_eq_one hcons (hids ▸ hnd) (hids ▸ hqm)
  · intro M rnd r now hinv hnd
    obtain ⟨⟨itId2, _, hc2, hm2⟩, hids⟩ := gameTick_keeps M rnd r now hinv
    exact countIt_eq_one hc2 (hids ▸ hnd) hm2
  · intro r pid now k r2 hres hst hinv hnd
    obtain ⟨⟨itId2, _, hc2, hm2⟩, hnd2⟩ := disconnect_keeps hres hst hinv hnd
    exact countIt_eq_one hc2 hnd2 hm2

/-- Concrete instances of singleIt_preserved: a fresh two-player room after
startGame, a playing room across a tick in which a real tag transfer fires,
and the same room after the IT player disconnects, all end with exactly one
IT player. -/
theorem singleIt_preserved_example :
    countIt (startGame roomW 1000 0).1.players = 1 ∧
    countIt (gameTick mathId noRand roomT 1100).1.players = 1 ∧
    countIt ((disconnect roomT 0 1200 0).getD roomT).players = 1 := by
  refine ⟨?_, ?_, ?_⟩
  · exact singleIt_preserved.1 roomW 1000 0 (basePlayer 0) (by with_unfolding_all decide)
      (by with_unfolding_all decide) (by with_unfolding_all decide)
  · exact singleIt_preserved.2.1 mathId noRand roomT 1100
      ⟨0, rfl, by with_unfolding_all decide, by with_unfolding_all decide⟩
      (by with_unfolding_all decide)
  · exact singleIt_preserved.2.2 roomT 0 1200 0 ((disconnect roomT 0 1200 0).getD roomT)
      (by with_unfolding_all decide) rfl
      ⟨0, rfl, by with_unfolding_all decide, by with_unfolding_all decide⟩
      (by with_unfolding_all decide)

/-- C1: evaluation of the code at the failing input.  The source breaks the
exactly-one-IT invariant the claim states: the startGame handler guard also
admits the ended state and endGame never clears isIt, so a host startGame on
an ended room whose previous IT player still carries the flag, with the
random pick landing on the other player, yields a playing room with two
isIt = true players.  Only the playAgain reset clears the stale flag, and it
is not required before startGame. -/
theorem c1_two_it_from_restart :
    roomStale.state = GameState.ended ∧
    pStale0.isIt = true ∧
    (startGame (startGameCase roomStale 0).1 5000 1).1.state = GameState.playing ∧
    countIt (startGame (startGameCase roomStale 0).1 5000 1).1.players = 2 := by
  refine ⟨rfl, rfl, by with_unfolding_all decide, by with_unfolding_all decide⟩

lemma tagPhase_events (ps : List Player) (itId ftId : Option ℕ) (now : ℤ) :
    (tagPhase ps itId ftId now).2.2.2 = [] ∨
    ∃ a b, (tagPhase ps itId ftId now).2.2.2 = [Event.tagged a b] := by
  rw [tagPhase]
  cases lookupPlayer itId ps with
  | none => exact Or.inl rfl
  | some itP =>
    by_cases himm : itP.immune
    · simp [himm]
    · simp only [himm, Bool.false_eq_true, if_false]
      cases findTagTarget itP ps with
      | none => exact Or.inl rfl
      | some tgt => exact Or.inr ⟨tgt.id, itP.id, rfl⟩

/-- C2: tag detection is skipped while the IT player is immune and skips
immune candidates, and immunity expires at the first tick whose timestamp
reaches immuneUntil.  Part one gives the exact expiry rule of the stat pass:
the immune flag survives a tick at time now exactly when it was set and now
is still strictly before immuneUntil.  Part two: any tagged event emitted by
a tick names a tagger that is the non-immune IT player and a target that is
non-immune and distinct from it, both judged after the expiry pass of the
same tick. -/
theorem c2_immunity_gating :
    (∀ (M : MathFns) (now dt : ℤ) (p : Player),
        (statUpdate M now dt p).immune = (p.immune && decide (now < p.immuneUntil)))
    ∧ (∀ (M : MathFns) (rnd : ℕ → BotRand) (r : Room) (now : ℤ) (a b : ℕ),
        Event.tagged a b ∈ (gameTick M rnd r now).2 →
        ∃ itP tgt,
          lookupPlayer r.itPlayerId (tickPlayers M rnd r now) = some itP ∧
          findTagTarget itP (tickPlayers M rnd r now) = some tgt ∧
          itP.immune = false ∧ tgt.immune = false ∧ tgt.id ≠ itP.id ∧
          a = tgt.id ∧ b = itP.id) := by
  constructor
  · intro M now dt p
    rfl
  · intro M rnd r now a b hmem
    rw [gameTick] at hmem
    by_cases hst : r.state ≠ GameState.playing
    · rw [if_pos hst] at hmem
      exact absurd hmem (by simp)
    · rw [if_neg hst] at hmem
      simp only [List.mem_append, List.mem_singleton] at hmem
      rcases hmem with hmem | hmem
      swap
      · exact absurd hmem (by simp)
      rw [tagPhase] at hmem
      cases hlk : lookupPlayer r.itPlayerId (tickPlayers M rnd r now) with
      | none =>
        rw [hlk] at hmem
        exact absurd hmem (by simp)
      | some itP =>
        rw [hlk] at hmem
        by_cases himm : itP.immune
        · simp [himm] at hmem
        · simp only [himm, Bool.false_eq_true, if_false] at hmem
          cases hft : findTagTarget itP (tickPlayers M rnd r now) with
          | none =>
            rw [hft] at hmem
            exact absurd hmem (by simp)
          | some tgt =>
            rw [hft] at hmem
            simp only [performTag, List.mem_singleton, Event.tagged.injEq] at hmem
            rcases findTagTarget_spec hft with ⟨_, htne, htimm, _⟩
            exact ⟨itP, tgt, rfl, hft, by simpa using himm, htimm, htne, hmem.1, hmem.2⟩

/-- Witness for C2: a player whose immunity window has passed loses the flag
on the next tick, and in a playing room where a tag fires the emitted event
names the non-immune IT player 0 as tagger and the non-immune player 1 as
target. -/
theorem c2_immunity_gating_witness :
    (statUpdate mathId 5000 100 pImmW).immune
        = (pImmW.immune && decide ((5000 : ℤ) < pImmW.immuneUntil)) ∧
    (∃ itP tgt,
      lookupPlayer roomT.itPlayerId (tickPlayers mathId noRand roomT 1100) = some itP ∧
      findTagTarget itP (tickPlayers mathId noRand roomT 1100) = some tgt ∧
      itP.immune = false ∧ tgt.immune = false ∧ tgt.id ≠ itP.id ∧
      1 = tgt.id ∧ 0 = itP.id) :=
  ⟨c2_immunity_gating.1 mathId 5000 100 pImmW,
   c2_immunity_gating.2 mathId noRand roomT 1100 1 0 (by with_unfolding_all decide)⟩

lemma findTagTarget_cons_hit {itP p : Player} {rest : List Player} (h : tagHit itP p = true) :
    findTagTarget itP (p :: rest) = some p := by
  simp only [tagHit, Bool.and_eq_true, bne_iff_ne, ne_eq, Bool.not_eq_true',
    decide_eq_true_eq] at h
  rw [findTagTarget, if_neg (by simp [h.1.1, h.1.2]), if_pos h.2]

lemma findTagTarget_cons_miss {itP p : Player} {rest : List Player} (h : tagHit itP p = false) :
    findTagTarget itP (p :: rest) = findTagTarget itP rest := by
  rw [findTagTarget]
  by_cases hskip : (p.id == itP.id || p.immune) = true
  · rw [if_pos hskip]
  · rw [if_neg hskip]
    have hne : ¬p.id = itP.id ∧ p.immune = false := by
      simpa [not_or] using hskip
    have hd : ¬(distSq itP.x itP.y p.x p.y < TAG_DISTANCE_PCT * TAG_DISTANCE_PCT) := by
      rw [tagHit] at h
      simpa [hne.1, hne.2] using h
    rw [if_neg hd]

lemma findTagTarget_first (itP : Player) :
    ∀ (l : List Player) (t : Player),
      findTagTarget itP l = some t ↔
        ∃ i, nth l i = some t ∧ tagHit itP t = true ∧
          ∀ j q, j < i → nth l j = some q → tagHit itP q = false := by
  intro l
  induction l with
  | nil =>
    intro t
    constructor
    · intro h; exact absurd h (by simp [findTagTarget])
    · rintro ⟨i, hi, -, -⟩; cases i <;> simp [nth] at hi
  | cons p rest ih =>
    intro t
    by_cases hhit : tagHit itP p = true
    · rw [findTagTarget_cons_hit hhit]
      constructor
      · intro h
        have hpt : p = t := Option.some_inj.mp h
        subst hpt
        exact ⟨0, rfl, hhit, fun j q hj _ => absurd hj (Nat.not_lt_zero j)⟩
      · rintro ⟨i, hi, hth, hprev⟩
        cases i with
        | zero => exact hi
        | succ n =>
          have hz := hprev 0 p (Nat.succ_pos n) rfl
          rw [hhit] at hz
          exact absurd hz (by simp)
    · have hf : tagHit itP p = false := by simpa using hhit
      rw [findTagTarget_cons_miss hf, ih]
      constructor
      · rintro ⟨i, hi, hth, hprev⟩
        refine ⟨i + 1, hi, hth, ?_⟩
        intro j q hj hq
        cases j with
        | zero =>
          have hpq : p = q := by simpa [nth] using hq
          rw [← hpq]
          exact hf
        | succ m => exact hprev m q (Nat.lt_of_succ_lt_succ hj) hq
      · rintro ⟨i, hi, hth, hprev⟩
        cases i with
        | zero =>
          have hpt : p = t := by simpa [nth] using hi
          rw [← hpt] at hth
          rw [hf] at hth
          exact absurd hth (by simp)
        | succ n =>
          exact ⟨n, hi, hth, fun j q hj hq => hprev (j + 1) q (Nat.succ_lt_succ hj) hq⟩

lemma gameTick_at_most_one_tag (M : MathFns) (rnd : ℕ → BotRand) (r : Room) (now : ℤ) :
    ((gameTick M rnd r now).2.countP isTaggedEv) ≤ 1 := by
  rw [gameTick]
  by_cases hst : r.state ≠ GameState.playing
  · rw [if_pos hst]; simp
  · rw [if_neg hst]
    show ((tagPhase (tickPlayers M rnd r now) r.itPlayerId r.firstTaggedId now).2.2.2
      ++ [Event.gameStateEv]).countP isTaggedEv ≤ 1
    rcases tagPhase_events (tickPlayers M rnd r now) r.itPlayerId r.firstTaggedId now with
      h | ⟨a, b, h⟩
    · rw [h]
      simp [isTaggedEv]
    · rw [h]
      simp [isTaggedEv]

/-- C3: the tag scan walks the players in join (list) order, skips the IT
player itself and immune players, and tags the first player strictly within
the arena-percentage threshold; the characterization below is first-match,
not nearest-match, since nothing beyond the prefix of earlier misses
constrains the chosen target.  The second part: a full tick emits at most
one tagged event. -/
theorem c3_first_match_scan :
    (∀ (itP : Player) (l : List Player) (t : Player),
      findTagTarget itP l = some t ↔
        ∃ i, nth l i = some t ∧ tagHit itP t = true ∧
          ∀ j q, j < i → nth l j = some q → tagHit itP q = false)
    ∧ (∀ (M : MathFns) (rnd : ℕ → BotRand) (r : Room) (now : ℤ),
        ((gameTick M rnd r now).2.countP isTaggedEv) ≤ 1) :=
  ⟨findTagTarget_first, gameTick_at_most_one_tag⟩

/-- Witness for C3: with the IT player at (50, 50), a player at distance 4 in
join order before a player at distance 1, the scan selects the farther,
earlier player, and a concrete tick emits at most one tagged event. -/
theorem c3_first_match_scan_witness :
    (∃ i, nth lW3 i = some pFar3 ∧ tagHit itW3 pFar3 = true ∧
      ∀ j q, j < i → nth lW3 j = some q → tagHit itW3 q = false) ∧
    ((gameTick mathId noRand roomT 1100).2.countP isTaggedEv) ≤ 1 :=
  ⟨(c3_first_match_scan.1 itW3 lW3 pFar3).mp (by with_unfolding_all decide),
   c3_first_match_scan.2 mathId noRand roomT 1100⟩

/-- C4 counterexample: the claim says startGame is not accepted in any state
other than waiting, but the handler guard also admits the ended state and
startCountdown does not re-check it, so a host startGame in an ended
two-player room starts the countdown. -/
theorem c4_counterexample :
    roomE.state = GameState.ended ∧
    (startGameCase roomE 0).1.state = GameState.countdown ∧
    Out.broadcast (Event.countdownEv COUNTDOWN_SECONDS) ∈ (startGameCase roomE 0).2 := by
  refine ⟨rfl, by with_unfolding_all decide, by with_unfolding_all decide⟩

/-- C4 (amended): the countdown starts, observable as the countdown
broadcast, exactly when the room state is waiting or ended, the issuer is the
current first-joined player, and the room has at least two players (bots
count); acceptance flips the state to countdown, and a host request in a
one-player room in an admissible state draws the user-visible error. -/
theorem c4_start_game_guard :
    ∀ (r : Room) (pid : ℕ),
      (Out.broadcast (Event.countdownEv COUNTDOWN_SECONDS) ∈ (startGameCase r pid).2 ↔
        ((r.state = GameState.waiting ∨ r.state = GameState.ended) ∧
          isHost r pid = true ∧ 2 ≤ r.players.length))
      ∧ (Out.broadcast (Event.countdownEv COUNTDOWN_SECONDS) ∈ (startGameCase r pid).2 →
          (startGameCase r pid).1.state = GameState.countdown)
      ∧ (isHost r pid = true → (r.state = GameState.waiting ∨ r.state = GameState.ended) →
          r.players.length = 1 →
          Out.toSender (Event.errorMsg "Need at least 2 players to start")
            ∈ (startGameCase r pid).2) := by
  intro r pid
  by_cases hA : r.state ≠ GameState.waiting ∧ r.state ≠ GameState.ended
  · have hre : startGameCase r pid = (r, []) := by rw [startGameCase, if_pos hA]
    refine ⟨?_, ?_, ?_⟩
    · rw [hre]
      constructor
      · intro h; simp at h
      · rintro ⟨hst, -, -⟩
        rcases hst with h1 | h1
        · exact absurd h1 hA.1
        · exact absurd h1 hA.2
    · rw [hre]; intro h; simp at h
    · intro _ hst _
      rcases hst with h1 | h1
      · exact absurd h1 hA.1
      · exact absurd h1 hA.2
  · have hOr : r.state = GameState.waiting ∨ r.state = GameState.ended := by
      by_contra hc
      push_neg at hc
      exact hA ⟨hc.1, hc.2⟩
    by_cases hH : isHost r pid = true
    · by_cases hlen : r.players.length < 2
      · have hre : startGameCase r pid =
            (r, [Out.toSender (Event.errorMsg "Need at least 2 players to start")]) := by
          rw [startGameCase, if_neg hA]
          simp [hH, hlen]
        refine ⟨?_, ?_, ?_⟩
        · rw [hre]
          constructor
          · intro h; simp at h
          · rintro ⟨-, -, hge⟩; omega
        · rw [hre]; intro h; simp at h
        · intro _ _ _
          rw [hre]
          simp
      · have hge : 2 ≤ r.players.length := Nat.not_lt.mp hlen
        have hre : startGameCase r pid = startCountdown r := by
          rw [startGameCase, if_neg hA]
          simp [hH, hlen]
        refine ⟨?_, ?_, ?_⟩
        · rw [hre]
          constructor
          · intro _; exact ⟨hOr, hH, hge⟩
          · intro _
            rw [startCountdown, if_neg hlen]
            simp
        · intro _
          rw [hre, startCountdown, if_neg hlen]
        · intro _ _ h1; omega
    · have hre : startGameCase r pid = (r, []) := by
        rw [startGameCase, if_neg hA]
        simp [hH]
      refine ⟨?_, ?_, ?_⟩
      · rw [hre]
        constructor
        · intro h; simp at h
        · rintro ⟨-, hh, -⟩; exact absurd hh hH
      · rw [hre]; intro h; simp at h
      · intro hh _ _; exact absurd hh hH

/-- Witness for C4: the host of a waiting two-player room starts the
countdown, and the host of a waiting one-player room draws the error. -/
theorem c4_start_game_guard_witness :
    Out.broadcast (Event.countdownEv COUNTDOWN_SECONDS) ∈ (startGameCase roomW 0).2 ∧
    (startGameCase roomW 0).1.state = GameState.countdown ∧
    Out.toSender (Event.errorMsg "Need at least 2 players to start")
      ∈ (startGameCase roomSolo 0).2 := by
  have hacc := (c4_start_game_guard roomW 0).1.mpr
    ⟨Or.inl rfl, by with_unfolding_all decide, by with_unfolding_all decide⟩
  exact ⟨hacc, (c4_start_game_guard roomW 0).2.1 hacc,
    (c4_start_game_guard roomSolo 0).2.2 (by with_unfolding_all decide) (Or.inl rfl)
      (by with_unfolding_all decide)⟩

/-- C5: playAgain is accepted only in the ended state; it resets the room to
waiting, clears itPlayerId and firstTaggedId, and maps every player through
resetPlayer, which zeroes every per-round stat field, nulls the option
fields, empties the streak list, assigns the fresh spawn draw, and leaves
id, name and color untouched. -/
theorem c5_play_again_reset :
    ∀ (r : Room) (spawn : ℕ → SpawnRand),
      (r.state ≠ GameState.ended → playAgainCase r spawn = (r, []))
      ∧ (r.state = GameState.ended →
          (playAgainCase r spawn).1.state = GameState.waiting ∧
          (playAgainCase r spawn).1.itPlayerId = none ∧
          (playAgainCase r spawn).1.firstTaggedId = none ∧
          (playAgainCase r spawn).1.players =
            mapWithIdx (fun i p => resetPlayer (spawn i) p) r.players)
      ∧ (∀ (sr : SpawnRand) (p : Player),
          (resetPlayer sr p).id = p.id ∧ (resetPlayer sr p).name = p.name ∧
          (resetPlayer sr p).color = p.color ∧
          (resetPlayer sr p).timeNotIt = 0 ∧ (resetPlayer sr p).tagsMade = 0 ∧
          (resetPlayer sr p).fastestTag = none ∧ (resetPlayer sr p).becameItAt = none ∧
          (resetPlayer sr p).wasEverIt = false ∧ (resetPlayer sr p).timesTagged = 0 ∧
          (resetPlayer sr p).lastTaggerId = none ∧ (resetPlayer sr p).retags = 0 ∧
          (resetPlayer sr p).totalDistance = 0 ∧ (resetPlayer sr p).cornerTime = 0 ∧
          (resetPlayer sr p).edgeTime = 0 ∧ (resetPlayer sr p).itStreaks = [] ∧
          (resetPlayer sr p).currentItStart = none ∧ (resetPlayer sr p).opportunistTags = 0 ∧
          (resetPlayer sr p).x = sr.sx ∧ (resetPlayer sr p).y = sr.sy) := by
  intro r spawn
  refine ⟨?_, ?_, ?_⟩
  · intro h
    rw [playAgainCase, if_pos h]
  · intro h
    have hnot : ¬r.state ≠ GameState.ended := by simp [h]
    rw [playAgainCase, if_neg hnot]
    exact ⟨rfl, rfl, rfl, rfl⟩
  · intro sr p
    refine ⟨rfl, rfl, rfl, rfl, rfl, rfl, rfl, rfl, rfl, rfl, rfl, rfl, rfl, rfl, rfl,
      rfl, rfl, rfl, rfl⟩

/-- Witness for C5: a waiting room is left untouched by playAgain, an ended
room returns to waiting, and a concrete reset player keeps id, name and
color while its stats are back at their initial values. -/
theorem c5_play_again_reset_witness :
    playAgainCase roomW spawnC = (roomW, []) ∧
    (playAgainCase roomE spawnC).1.state = GameState.waiting ∧
    (resetPlayer (spawnC 0) pEA7).id = pEA7.id ∧
    (resetPlayer (spawnC 0) pEA7).name = pEA7.name ∧
    (resetPlayer (spawnC 0) pEA7).totalDistance = 0 :=
  ⟨(c5_play_again_reset roomW spawnC).1 (by with_unfolding_all decide),
   ((c5_play_again_reset roomE spawnC).2.1 rfl).1,
   ((c5_play_again_reset roomE spawnC).2.2 (spawnC 0) pEA7).1,
   ((c5_play_again_reset roomE spawnC).2.2 (spawnC 0) pEA7).2.1,
   ((c5_play_again_reset roomE spawnC).2.2 (spawnC 0) pEA7).2.2.2.2.2.2.2.2.2.2.2.1⟩

lemma endGameScored_eq (r : Room) (now : ℤ) :
    endGameScored r now = (r.players.map (closeEndStreak now)).map (fun q =>
      { id := q.id, name := q.name, color := q.color,
        score := computeScore
          (minList ((r.players.map (closeEndStreak now)).filterMap
            (fun q2 => minList q2.itStreaks)))
          (maxListN ((r.players.map (closeEndStreak now)).map (fun q2 => q2.retags)))
          (maxListQ ((r.players.map (closeEndStreak now)).map (fun q2 => q2.totalDistance)))
          r.itPlayerId q,
        isLoser := r.itPlayerId = some q.id,
        award := assignAwards (r.players.map (closeEndStreak now)) r.firstTaggedId q.id }) :=
  rfl

/-- C6: the end-of-round score of the player at position i of the
streak-closed list is the floor of its not-IT milliseconds divided by 100,
plus 10 when never IT, plus 10 when its shortest streak equals the round
minimum among players with a streak, plus 10 when tied for the positive
maximum of re-tags, plus 10 when tied for the positive maximum of distance,
with 20 subtracted and the result floored at zero exactly when the player is
the IT player at round end.  Ties share the bonus because the comparison is
equality with the maximum, not uniqueness. -/
theorem c6_score_formula :
    ∀ (r : Room) (now : ℤ) (i : ℕ) (p : Player),
      nth (r.players.map (closeEndStreak now)) i = some p →
      (nth (endGameScored r now) i).map ScoredEntry.id = some p.id ∧
      (nth (endGameScored r now) i).map ScoredEntry.score = some (
        (fun base => if r.itPlayerId = some p.id then max 0 (base - 20) else base)
          (Int.fdiv p.timeNotIt 100
            + (if p.wasEverIt then 0 else 10)
            + (if ¬p.itStreaks.isEmpty ∧ minList p.itStreaks =
                  minList ((r.players.map (closeEndStreak now)).filterMap
                    (fun q => minList q.itStreaks)) then 10 else 0)
            + (if 0 < p.retags ∧ some p.retags =
                  maxListN ((r.players.map (closeEndStreak now)).map (fun q => q.retags))
                then 10 else 0)
            + (if 0 < p.totalDistance ∧ some p.totalDistance =
                  maxListQ ((r.players.map (closeEndStreak now)).map
                    (fun q => q.totalDistance))
                then 10 else 0))) := by
  intro r now i p hp
  rw [endGameScored_eq, nth_map, hp]
  exact ⟨rfl, rfl⟩

/-- Witness for C6: in an ended room where players 0 and 1 both logged 30000
not-IT milliseconds and the identical maximal distance 50, both receive the
distance bonus: each scores 300 + 10 (never IT) + 10 (distance) = 320. -/
theorem c6_score_formula_witness :
    (nth (endGameScored roomS 61000) 0).map ScoredEntry.score = some 320 ∧
    (nth (endGameScored roomS 61000) 1).map ScoredEntry.score = some 320 := by
  constructor
  · exact ((c6_score_formula roomS 61000 0 (playerS 0) rfl).2).trans
      (by with_unfolding_all decide)
  · exact ((c6_score_formula roomS 61000 1 (playerS 1) rfl).2).trans
      (by with_unfolding_all decide)

lemma awAssign_preserves {st : AwSt} {i j : ℕ} {a : Award}
    (h : EAgood st i) (hj : st.assigned.contains j = false) :
    EAgood (awAssign st j a) i := by
  have hij : i ≠ j := by
    intro he
    rw [← he] at hj
    rw [h.2] at hj
    exact absurd hj (by simp)
  constructor
  · show (fun k => if k = j then some a else st.awards k) i = some escapeArtist
    simp only [if_neg hij]
    exact h.1
  · show (j :: st.assigned).contains i = true
    simp only [List.contains_cons]
    rw [h.2]
    simp

lemma maxBy_unassigned {key : Player → ℚ} {st : AwSt} {l : List Player} {q : Player}
    (h : maxBy key st l = some q) : st.assigned.contains q.id = false := by
  rw [maxBy] at h
  by_cases hv : (l.foldl
      (fun (acc : Option Player × ℚ) p =>
        if !st.assigned.contains p.id ∧ key p > acc.2 then (some p, key p) else acc)
      (none, -1)).2 > 0
  swap
  · rw [if_neg hv] at h
    exact absurd h (by simp)
  rw [if_pos hv] at h
  clear hv
  have haux : ∀ (l2 : List Player) (acc : Option Player × ℚ),
      (∀ q2, acc.1 = some q2 → st.assigned.contains q2.id = false) →
      ∀ q2, (l2.foldl
        (fun (acc : Option Player × ℚ) p =>
          if !st.assigned.contains p.id ∧ key p > acc.2 then (some p, key p) else acc)
        acc).1 = some q2 → st.assigned.contains q2.id = false := by
    intro l2
    induction l2 with
    | nil => intro acc hacc q2 hq2; exact hacc q2 hq2
    | cons p t ih =>
      intro acc hacc q2 hq2
      rw [List.foldl_cons] at hq2
      by_cases hcond : (!st.assigned.contains p.id) = true ∧ key p > acc.2
      · rw [if_pos hcond] at hq2
        refine ih (some p, key p) ?_ q2 hq2
        intro q3 hq3
        have : p = q3 := by simpa using hq3
        rw [← this]
        simpa using hcond.1
      · rw [if_neg hcond] at hq2
        exact ih acc hacc q2 hq2
  exact haux l (none, -1) (by intro q2 hq2; simp at hq2) q h

lemma phaseNeverIt_preserves {i : ℕ} :
    ∀ (l : List Player) (st : AwSt), EAgood st i → EAgood (phaseNeverIt l st) i := by
  intro l
  induction l with
  | nil => intro st h; exact h
  | cons q t ih =>
    intro st h
    rw [phaseNeverIt, List.foldl_cons]
    refine ih _ ?_
    by_cases hcond : (!q.wasEverIt) = true ∧ (!st.assigned.contains q.id) = true
    · rw [if_pos hcond]
      exact awAssign_preserves h (by simpa using hcond.2)
    · rw [if_neg hcond]
      exact h

lemma phaseNeverIt_establishes {p : Player} (hn : p.wasEverIt = false) :
    ∀ (l : List Player) (st : AwSt),
      (∀ j, st.assigned.contains j = true → st.awards j = some escapeArtist) →
      p ∈ l → EAgood (phaseNeverIt l st) p.id := by
  intro l
  induction l with
  | nil => intro st _ hp; exact absurd hp (List.not_mem_nil p)
  | cons q t ih =>
    intro st hAll hp
    rw [phaseNeverIt, List.foldl_cons]
    have hAll2 : ∀ j,
        (if (!q.wasEverIt) = true ∧ (!st.assigned.contains q.id) = true then
          awAssign st q.id escapeArtist else st).assigned.contains j = true →
        (if (!q.wasEverIt) = true ∧ (!st.assigned.contains q.id) = true then
          awAssign st q.id escapeArtist else st).awards j = some escapeArtist := by
      by_cases hcond : (!q.wasEverIt) = true ∧ (!st.assigned.contains q.id) = true
      · rw [if_pos hcond]
        intro j hj
        show (fun k => if k = q.id then some escapeArtist else st.awards k) j
          = some escapeArtist
        by_cases hjq : j = q.id
        · simp [hjq]
        · simp only [if_neg hjq]
          have hj2 : j = q.id ∨ st.assigned.contains j = true := by
            have h3 := hj
            simp only [awAssign, List.contains_cons, Bool.or_eq_true, beq_iff_eq] at h3
            exact h3
          rcases hj2 with h1 | h1
          · exact absurd h1 hjq
          · exact hAll j h1
      · rw [if_neg hcond]
        exact hAll
    rcases List.mem_cons.mp hp with hpq | hpt
    · subst hpq
      refine phaseNeverIt_preserves t _ ?_
      by_cases hc : st.assigned.contains p.id = true
      · have hgood : EAgood st p.id := ⟨hAll p.id hc, hc⟩
        by_cases hcond : (!p.wasEverIt) = true ∧ (!st.assigned.contains p.id) = true
        · rw [hc] at hcond
          exact absurd hcond.2 (by simp)
        · rw [if_neg hcond]
          exact hgood
      · have hcond : (!p.wasEverIt) = true ∧ (!st.assigned.contains p.id) = true := by
          constructor
          · simp [hn]
          · simp [Bool.not_eq_true'] at hc ⊢
            exact hc
        rw [if_pos hcond]
        constructor
        · show (fun k => if k = p.id then some escapeArtist else st.awards k) p.id
            = some escapeArtist
          simp
        · show (p.id :: st.assigned).contains p.id = true
          simp [List.contains_cons]
    · exact ih _ hAll2 hpt

lemma phaseFirstTagged_preserves {i : ℕ} (ft : Option ℕ) {st : AwSt}
    (h : EAgood st i) : EAgood (phaseFirstTagged ft st) i := by
  cases ft with
  | none => exact h
  | some j =>
    simp only [phaseFirstTagged]
    by_cases hc : (!st.assigned.contains j) = true
    · rw [if_pos hc]
      exact awAssign_preserves h (by simpa using hc)
    · rw [if_neg hc]
      exact h

lemma awardCat_preserves {i : ℕ} (key : Player → ℚ) (a : Award) (l : List Player)
    {st : AwSt} (h : EAgood st i) : EAgood (awardCat key a l st) i := by
  rw [awardCat]
  cases hmb : maxBy key st l with
  | none => exact h
  | some q => exact awAssign_preserves h (maxBy_unassigned hmb)

lemma phaseFiller_keeps :
    ∀ (l : List Player) (st : AwSt) (i : ℕ) (a : Award),
      st.awards i = some a → (phaseFiller l st).awards i = some a := by
  intro l
  induction l with
  | nil => intro st i a h; exact h
  | cons q t ih =>
    intro st i a h
    rw [phaseFiller, List.foldl_cons]
    refine ih _ i a ?_
    by_cases hcond : (st.awards q.id).isNone = true
    · rw [if_pos hcond]
      show (fun k => if k = q.id then some panicMouse else st.awards k) i = some a
      by_cases hiq : i = q.id
      · rw [hiq] at h
        rw [h] at hcond
        exact absurd hcond (by simp)
      · simp only [if_neg hiq]
        exact h
    · rw [if_neg hcond]
      exact h

lemma phaseFiller_none :
    ∀ (l : List Player) (st : AwSt) (p : Player), p ∈ l →
      st.awards p.id = none → (phaseFiller l st).awards p.id = some panicMouse := by
  intro l
  induction l with
  | nil => intro st p hp; exact absurd hp (List.not_mem_nil p)
  | cons q t ih =>
    intro st p hp h0
    rw [phaseFiller, List.foldl_cons]
    by_cases hqp : q.id = p.id
    · have hcond : (st.awards q.id).isNone = true := by rw [hqp, h0]; rfl
      rw [if_pos hcond]
      refine phaseFiller_keeps t _ p.id panicMouse ?_
      show (fun k => if k = q.id then some panicMouse else st.awards k) p.id
        = some panicMouse
      simp [hqp]
    · have hpt : p ∈ t := by
        rcases List.mem_cons.mp hp with h1 | h1
        · exact absurd (by rw [h1]) hqp
        · exact h1
      by_cases hcond : (st.awards q.id).isNone = true
      · rw [if_pos hcond]
        refine ih _ p hpt ?_
        have hne : ¬p.id = q.id := fun hc => hqp hc.symm
        show (if p.id = q.id then some panicMouse else st.awards p.id) = none
        rw [if_neg hne]
        exact h0
      · rw [if_neg hcond]
        exact ih st p hpt h0

lemma phaseFiller_fills :
    ∀ (l : List Player) (st : AwSt) (p : Player), p ∈ l →
      (phaseFiller l st).awards p.id ≠ none := by
  intro l st p hp
  cases h0 : st.awards p.id with
  | none =>
    rw [phaseFiller_none l st p hp h0]
    simp
  | some a =>
    rw [phaseFiller_keeps l st p.id a h0]
    simp

/-- C7: the award pass is a priority-ordered greedy fold over one dictionary
keyed by player id, so a player holds at most one award, and the never-IT
pass runs first and permanently claims its players: every player who was
never IT ends with the escape artist award no matter which maxima it also
holds, since every later category only assigns unclaimed players and the
filler never overwrites an assigned award. -/
theorem c7_never_it_award :
    ∀ (l : List Player) (ft : Option ℕ) (p : Player), p ∈ l → p.wasEverIt = false →
      assignAwards l ft p.id = some escapeArtist := by
  intro l ft p hp hn
  have h0 : EAgood (phaseNeverIt l awSt0) p.id :=
    phaseNeverIt_establishes hn l awSt0 (by intro j hj; simp [awSt0] at hj) hp
  have h1 := phaseFirstTagged_preserves ft h0
  have h2 := awardCat_preserves (fun p => p.totalDistance) panicMouse l h1
  have h3 := awardCat_preserves (fun p => (p.retags : ℚ)) revengeSeeker l h2
  have h4 := awardCat_preserves (fun p => (p.timesTagged : ℚ)) magnetToDanger l h3
  have h5 := awardCat_preserves (fun p => (p.cornerTime : ℚ)) cornerRat l h4
  have h6 := awardCat_preserves (fun p => (p.opportunistTags : ℚ)) opportunistAw l h5
  have h7 := awardCat_preserves (fun p => (p.edgeTime : ℚ)) anchoredToWalls l h6
  rw [assignAwards]
  exact phaseFiller_keeps l (preFillerAwards l ft) p.id escapeArtist h7.1

/-- Witness for C7: in a two-player list where the never-IT player also holds
every positive maximum (distance, re-tags, times tagged, corner and edge
time, opportunist tags), it still receives the escape artist award. -/
theorem c7_never_it_award_witness :
    assignAwards lAw7 (some 0) pEA7.id = some escapeArtist :=
  c7_never_it_award lAw7 (some 0) pEA7
    (List.mem_cons_of_mem pAw7 (List.mem_cons_self pEA7 [])) rfl

/-- C8: every row of the end-of-round output carries a non-null award: any
player missed by all priority categories is filled with the panic mouse
award, the same award object the highest-distance category assigns, so a
filler recipient is indistinguishable in the output from the distance
leader. -/
theorem c8_default_award :
    (∀ (r : Room) (now : ℤ) (i : ℕ) (e : ScoredEntry),
        nth (endGameScored r now) i = some e → e.award ≠ none)
    ∧ (∀ (l : List Player) (ft : Option ℕ) (p : Player), p ∈ l →
        (preFillerAwards l ft).awards p.id = none →
        assignAwards l ft p.id = some panicMouse) := by
  constructor
  · intro r now i e he
    rw [endGameScored_eq, nth_map] at he
    cases hq : nth (r.players.map (closeEndStreak now)) i with
    | none =>
      rw [hq] at he
      exact absurd he (by simp)
    | some q =>
      rw [hq] at he
      have he2 : e.award = assignAwards (r.players.map (closeEndStreak now))
          r.firstTaggedId q.id := by
        have := Option.some_inj.mp he
        rw [← this]
      rw [he2, assignAwards]
      exact phaseFiller_fills _ _ q (nth_mem hq)
  · intro l ft p hp h0
    rw [assignAwards]
    exact phaseFiller_none l (preFillerAwards l ft) p hp h0

/-- Witness for C8: the first row of a concrete ended room carries an award,
and a player with all-zero stats who was IT, claimed by no category, ends
with exactly the panic mouse award. -/
theorem c8_default_award_witness :
    ((nth (endGameScored roomS 61000) 0).getD dummyEntry).award ≠ none ∧
    assignAwards lAw8 none pB8.id = some panicMouse :=
  ⟨c8_default_award.1 roomS 61000 0 ((nth (endGameScored roomS 61000) 0).getD dummyEntry) rfl,
   c8_default_award.2 lAw8 none pB8
     (List.mem_cons_of_mem pAw7 (List.mem_cons_self pB8 []))
     (by with_unfolding_all decide)⟩

/-- C9: the room removal scheduled by endGame fires 30000 ms after the round
ends; it is a plain registry delete whose handle is never stored, so it
applies to whatever registry exists then, independent of any playAgain in
between; and once the entry is gone, every room-scoped intent, the host
playAgain included, resolves to no room and is dropped without touching the
registry or emitting anything.  Hence ended to waiting is only reachable
while the entry still exists, within 30 seconds of the round end. -/
theorem c9_room_expiry :
    ∀ (rs : Registry) (code : String) (tEnd : ℤ) (f : Room → Room × List Out),
      roomDeletionAt tEnd = tEnd + 30000 ∧
      lookupRoom (deleteRoomEntry rs code) code = none ∧
      handleScoped (deleteRoomEntry rs code) (some code) f = (deleteRoomEntry rs code, []) := by
  intro rs code tEnd f
  have h2 : lookupRoom (deleteRoomEntry rs code) code = none := by
    rw [lookupRoom, deleteRoomEntry]
    have hfind : List.find? (fun e => decide (e.1 = code))
        (List.filter (fun e => decide (e.1 ≠ code)) rs) = none := by
      rw [List.find?_eq_none]
      intro x hx
      have hne := List.of_mem_filter hx
      simp only [decide_eq_true_eq] at hne ⊢
      exact hne
    rw [hfind]
    rfl
  refine ⟨rfl, h2, ?_⟩
  simp only [handleScoped, h2]

lemma isHost_iff (r : Room) (pid : ℕ) :
    isHost r pid = true ↔ r.players.head?.map Player.id = some pid := by
  cases hh : r.players.head? with
  | none =>
    rw [isHost, hh]
    simp
  | some fp =>
    rw [isHost, hh]
    simp

/-- C10: the host check of the addBot, removeBot and startGame cases is
positional: it passes exactly when the issuer id equals the id of whichever
player is currently first in the join-order map, each of the three cases is
a silent no-op for any other issuer, and after the original first player is
gone the check is evaluated against the earliest remaining player, who
thereby acquires the privileges. -/
theorem c10_positional_host :
    (∀ (r : Room) (pid : ℕ),
        isHost r pid = true ↔ r.players.head?.map Player.id = some pid)
    ∧ (∀ (r : Room) (pid : ℕ) (d : String) (nb : NewBotRand),
        isHost r pid = false → addBotCase r pid d nb = (r, []))
    ∧ (∀ (r : Room) (pid bid : ℕ),
        isHost r pid = false → removeBotCase r pid bid = (r, []))
    ∧ (∀ (r : Room) (pid : ℕ),
        isHost r pid = false → startGameCase r pid = (r, []))
    ∧ (∀ (r r2 : Room) (q : Player) (t : List Player) (pid : ℕ),
        r.players = q :: t → r2.players = t →
        (isHost r2 pid = true ↔ t.head?.map Player.id = some pid)) := by
  refine ⟨isHost_iff, ?_, ?_, ?_, ?_⟩
  · intro r pid d nb hH
    rw [addBotCase]
    by_cases hst : r.state ≠ GameState.waiting
    · rw [if_pos hst]
    · rw [if_neg hst, if_pos (by simp [hH])]
  · intro r pid bid hH
    rw [removeBotCase]
    by_cases hst : r.state ≠ GameState.waiting
    · rw [if_pos hst]
    · rw [if_neg hst, if_pos (by simp [hH])]
  · intro r pid hH
    rw [startGameCase]
    by_cases hst : r.state ≠ GameState.waiting ∧ r.state ≠ GameState.ended
    · rw [if_pos hst]
    · rw [if_neg hst, if_pos (by simp [hH])]
  · intro r r2 q t pid hr hr2
    rw [isHost_iff, hr2]

/-- Witness for C10: in the two-player room the first-joined player 0 passes
the host check, player 1 is silently rejected by all three privileged cases,
and after player 0 departs the check passes for player 1, the earliest
remaining player. -/
theorem c10_positional_host_witness :
    isHost roomW 0 = true ∧
    addBotCase roomW 1 "easy" nbW = (roomW, []) ∧
    removeBotCase roomW 1 5 = (roomW, []) ∧
    startGameCase roomW 1 = (roomW, []) ∧
    isHost { roomW with players := roomW.players.tail } 1 = true := by
  refine ⟨?_, ?_, ?_, ?_, ?_⟩
  · exact (c10_positional_host.1 roomW 0).mpr (by with_unfolding_all decide)
  · exact c10_positional_host.2.1 roomW 1 "easy" nbW (by with_unfolding_all decide)
  · exact c10_positional_host.2.2.1 roomW 1 5 (by with_unfolding_all decide)
  · exact c10_positional_host.2.2.2.1 roomW 1 (by with_unfolding_all decide)
  · exact (c10_positional_host.2.2.2.2 roomW { roomW with players := roomW.players.tail }
      (basePlayer 0) (roomW.players.tail) 1 (by with_unfolding_all decide) rfl).mpr
      (by with_unfolding_all decide)

end CursorTag
